/-
Verification of the secp256k1 key-management and signing layer
(keys.rs, secp256k1/message.rs, examples/schnorr_sig.rs).

The development embeds the Rust sources shallowly: scalars mod the group
order n and field elements mod the curve prime p are natural numbers kept
reduced by explicit `% n` / `% p`; points are `Option (Nat × Nat)` with
`none` for the point at infinity; fallible parsers return `Except Error`.
Components of the repository that are outside the provided sources
(the big-integer scalar/field engine, the point-multiplication contexts,
the HMAC-DRBG, the hash function, the Schnorr challenge) are modelled
from the specification; each such definition is marked in its doc comment.

The file begins with a Pratt-style primality development, since several
properties (scalar-inverse correctness, multiplicative closure of valid
secret keys, the curve group law) need the group order n and the field
prime p to be prime.
-/
import Mathlib

set_option maxRecDepth 100000
set_option maxHeartbeats 4000000

namespace Secp

/-- Fuel-driven binary modular exponentiation: the accumulator loop.
The fuel argument only bounds the recursion; the loop exits as soon as
the exponent reaches zero. -/
def powModGo (m : Nat) : Nat → Nat → Nat → Nat → Nat
  | 0, _, _, acc => acc
  | f + 1, b, e, acc =>
      if e = 0 then acc
      else powModGo m f (b * b % m) (e / 2) (if e % 2 = 1 then acc * b % m else acc)

/-- Binary modular exponentiation on naturals, kernel-computable. -/
def powMod (b e m : Nat) : Nat := powModGo m e (b % m) e (1 % m)

theorem powModGo_eq (m : Nat) (hm : 0 < m) :
    ∀ f e b acc, e ≤ f → acc < m → powModGo m f b e acc = acc * b ^ e % m := by
  intro f
  induction f with
  | zero =>
      intro e b acc he hacc
      have he0 : e = 0 := Nat.le_zero.mp he
      subst he0
      simp [powModGo, Nat.mod_eq_of_lt hacc]
  | succ f ih =>
      intro e b acc he hacc
      by_cases he0 : e = 0
      · subst he0
        simp [powModGo, Nat.mod_eq_of_lt hacc]
      · have hdiv : e / 2 ≤ f := by omega
        rw [powModGo, if_neg he0]
        by_cases hodd : e % 2 = 1
        · rw [if_pos hodd]
          rw [ih (e / 2) (b * b % m) _ hdiv (Nat.mod_lt _ hm)]
          have h1 : acc * b % m * (b * b % m) ^ (e / 2) ≡ acc * b * (b * b) ^ (e / 2) [MOD m] :=
            Nat.ModEq.mul (Nat.mod_modEq _ _) (Nat.ModEq.pow _ (Nat.mod_modEq _ _))
          have h2 : acc * b * (b * b) ^ (e / 2) = acc * b ^ e := by
            conv_rhs => rw [show e = 2 * (e / 2) + 1 by omega]
            ring
          calc acc * b % m * (b * b % m) ^ (e / 2) % m
              = acc * b * (b * b) ^ (e / 2) % m := h1
            _ = acc * b ^ e % m := by rw [h2]
        · rw [if_neg hodd]
          rw [ih (e / 2) (b * b % m) _ hdiv hacc]
          have h1 : acc * (b * b % m) ^ (e / 2) ≡ acc * (b * b) ^ (e / 2) [MOD m] :=
            Nat.ModEq.mul (Nat.ModEq.refl _) (Nat.ModEq.pow _ (Nat.mod_modEq _ _))
          have h2 : acc * (b * b) ^ (e / 2) = acc * b ^ e := by
            conv_rhs => rw [show e = 2 * (e / 2) by omega]
            ring
          calc acc * (b * b % m) ^ (e / 2) % m
              = acc * (b * b) ^ (e / 2) % m := h1
            _ = acc * b ^ e % m := by rw [h2]

theorem powMod_eq (b e m : Nat) (hm : 0 < m) : powMod b e m = b ^ e % m := by
  rw [powMod, powModGo_eq m hm e e (b % m) (1 % m) (Nat.le_refl e) (Nat.mod_lt _ hm)]
  conv_lhs =>
    rw [Nat.mul_mod, Nat.mod_mod, ← Nat.mul_mod, Nat.one_mul, ← Nat.pow_mod]

theorem castPow_eq_powMod (a e m : Nat) (hm : 0 < m) :
    ((a : ZMod m)) ^ e = ((powMod a e m : Nat) : ZMod m) := by
  rw [powMod_eq a e m hm, ZMod.natCast_mod, Nat.cast_pow]

theorem cast_eq_one_iff_of_lt (m c : Nat) (h1 : 1 < m) (hc : c < m) :
    ((c : ZMod m) = 1) ↔ c = 1 := by
  haveI : Fact (1 < m) := ⟨h1⟩
  haveI : NeZero m := ⟨by omega⟩
  constructor
  · intro h
    have hv : (c : ZMod m).val = (1 : ZMod m).val := by rw [h]
    rwa [ZMod.val_cast_of_lt hc, ZMod.val_one m] at hv
  · intro h; rw [h]; exact Nat.cast_one

theorem castPow_eq_one_of_powMod (a e m : Nat) (hm : 0 < m) (h : powMod a e m = 1) :
    ((a : ZMod m)) ^ e = 1 := by
  rw [castPow_eq_powMod a e m hm, h, Nat.cast_one]

theorem castPow_ne_one_of_powMod (a e m : Nat) (h1 : 1 < m) (h : powMod a e m ≠ 1) :
    ((a : ZMod m)) ^ e ≠ 1 := by
  have hm : 0 < m := by omega
  rw [castPow_eq_powMod a e m hm]
  intro hEq
  have hlt : powMod a e m < m := by
    rw [powMod_eq a e m hm]; exact Nat.mod_lt _ hm
  exact h ((cast_eq_one_iff_of_lt m _ h1 hlt).mp hEq)

theorem dvd_or_of_prime_mul {q a b : Nat} (hq : q.Prime) (h : q ∣ a * b) :
    q ∣ a ∨ q ∣ b := (Nat.Prime.dvd_mul hq).mp h

theorem prime_eq_of_dvd_pow {q r k : Nat} (hq : q.Prime) (hr : r.Prime) (h : q ∣ r ^ k) :
    q = r := (Nat.prime_dvd_prime_iff_eq hq hr).mp (hq.dvd_of_dvd_pow h)

end Secp

namespace Secp

/-- Pratt certificate for 545358713 (member of the order-n certificate chain). -/
theorem prime_545358713 : Nat.Prime 545358713 := by
  have hp : (545358713 : Nat) - 1 = 2 ^ 3 * (41 * (59 * 28181)) := by norm_num
  refine lucas_primality _ ((5 : Nat) : ZMod 545358713)
    (castPow_eq_one_of_powMod _ _ _ (by norm_num) (by decide)) ?_
  intro q hq hdvd
  rw [hp] at hdvd
  rcases dvd_or_of_prime_mul hq hdvd with h | h
  · have hq2 : q = 2 := prime_eq_of_dvd_pow hq (by norm_num) h
    subst hq2; exact castPow_ne_one_of_powMod _ _ _ (by norm_num) (by decide)
  rcases dvd_or_of_prime_mul hq h with h | h
  · have hqe : q = 41 := (Nat.prime_dvd_prime_iff_eq hq (by norm_num)).mp h
    subst hqe; exact castPow_ne_one_of_powMod _ _ _ (by norm_num) (by decide)
  rcases dvd_or_of_prime_mul hq h with h | h
  · have hqe : q = 59 := (Nat.prime_dvd_prime_iff_eq hq (by norm_num)).mp h
    subst hqe; exact castPow_ne_one_of_powMod _ _ _ (by norm_num) (by decide)
  · have hqe : q = 28181 := (Nat.prime_dvd_prime_iff_eq hq (by norm_num)).mp h
    subst hqe; exact castPow_ne_one_of_powMod _ _ _ (by norm_num) (by decide)

/-- Pratt certificate for 1627771 (member of the order-n certificate chain). -/
theorem prime_1627771 : Nat.Prime 1627771 := by
  have hp : (1627771 : Nat) - 1 = 2 * (3 * (5 * (29 * 1871))) := by norm_num
  refine lucas_primality _ ((3 : Nat) : ZMod 1627771)
    (castPow_eq_one_of_powMod _ _ _ (by norm_num) (by decide)) ?_
  intro q hq hdvd
  rw [hp] at hdvd
  rcases dvd_or_of_prime_mul hq hdvd with h | h
  · have hqe : q = 2 := (Nat.prime_dvd_prime_iff_eq hq (by norm_num)).mp h
    subst hqe; exact castPow_ne_one_of_powMod _ _ _ (by norm_num) (by decide)
  rcases dvd_or_of_prime_mul hq h with h | h
  · have hqe : q = 3 := (Nat.prime_dvd_prime_iff_eq hq (by norm_num)).mp h
    subst hqe; exact castPow_ne_one_of_powMod _ _ _ (by norm_num) (by decide)
  rcases dvd_or_of_prime_mul hq h with h | h
  · have hqe : q = 5 := (Nat.prime_dvd_prime_iff_eq hq (by norm_num)).mp h
    subst hqe; exact castPow_ne_one_of_powMod _ _ _ (by norm_num) (by decide)
  rcases dvd_or_of_prime_mul hq h with h | h
  · have hqe : q = 29 := (Nat.prime_dvd_prime_iff_eq hq (by norm_num)).mp h
    subst hqe; exact castPow_ne_one_of_powMod _ _ _ (by norm_num) (by decide)
  · have hqe : q = 1871 := (Nat.prime_dvd_prime_iff_eq hq (by norm_num)).mp h
    subst hqe; exact castPow_ne_one_of_powMod _ _ _ (by norm_num) (by decide)

/-- Pratt certificate for 4681609 (member of the order-n certificate chain). -/
theorem prime_4681609 : Nat.Prime 4681609 := by
  have hp : (4681609 : Nat) - 1 = 2 ^ 3 * (3 * (97 * 2011)) := by norm_num
  refine lucas_primality _ ((23 : Nat) : ZMod 4681609)
    (castPow_eq_one_of_powMod _ _ _ (by norm_num) (by decide)) ?_
  intro q hq hdvd
  rw [hp] at hdvd
  rcases dvd_or_of_prime_mul hq hdvd with h | h
  · have hqe : q = 2 := prime_eq_of_dvd_pow hq (by norm_num) h
    subst hqe; exact castPow_ne_one_of_powMod _ _ _ (by norm_num) (by decide)
  rcases dvd_or_of_prime_mul hq h with h | h
  · have hqe : q = 3 := (Nat.prime_dvd_prime_iff_eq hq (by norm_num)).mp h
    subst hqe; exact castPow_ne_one_of_powMod _ _ _ (by norm_num) (by decide)
  rcases dvd_or_of_prime_mul hq h with h | h
  · have hqe : q = 97 := (Nat.prime_dvd_prime_iff_eq hq (by norm_num)).mp h
    subst hqe; exact castPow_ne_one_of_powMod _ _ _ (by norm_num) (by decide)
  · have hqe : q = 2011 := (Nat.prime_dvd_prime_iff_eq hq (by norm_num)).mp h
    subst hqe; exact castPow_ne_one_of_powMod _ _ _ (by norm_num) (by decide)

/-- Pratt certificate for 44706919 (member of the order-n certificate chain). -/
theorem prime_44706919 : Nat.Prime 44706919 := by
  have hp : (44706919 : Nat) - 1 = 2 * (3 * (797 * 9349)) := by norm_num
  refine lucas_primality _ ((6 : Nat) : ZMod 44706919)
    (castPow_eq_one_of_powMod _ _ _ (by norm_num) (by decide)) ?_
  intro q hq hdvd
  rw [hp] at hdvd
  rcases dvd_or_of_prime_mul hq hdvd with h | h
  · have hqe : q = 2 := (Nat.prime_dvd_prime_iff_eq hq (by norm_num)).mp h
    subst hqe; exact castPow_ne_one_of_powMod _ _ _ (by norm_num) (by decide)
  rcases dvd_or_of_prime_mul hq h with h | h
  · have hqe : q = 3 := (Nat.prime_dvd_prime_iff_eq hq (by norm_num)).mp h
    subst hqe; exact castPow_ne_one_of_powMod _ _ _ (by norm_num) (by decide)
  rcases dvd_or_of_prime_mul hq h with h | h
  · have hqe : q = 797 := (Nat.prime_dvd_prime_iff_eq hq (by norm_num)).mp h
    subst hqe; exact castPow_ne_one_of_powMod _ _ _ (by norm_num) (by decide)
  · have hqe : q = 9349 := (Nat.prime_dvd_prime_iff_eq hq (by norm_num)).mp h
    subst hqe; exact castPow_ne_one_of_powMod _ _ _ (by norm_num) (by decide)

/-- Pratt certificate for 13331831 (member of the field-prime certificate chain). -/
theorem prime_13331831 : Nat.Prime 13331831 := by
  have hp : (13331831 : Nat) - 1 = 2 * (5 * (971 * 1373)) := by norm_num
  refine lucas_primality _ ((13 : Nat) : ZMod 13331831)
    (castPow_eq_one_of_powMod _ _ _ (by norm_num) (by decide)) ?_
  intro q hq hdvd
  rw [hp] at hdvd
  rcases dvd_or_of_prime_mul hq hdvd with h | h
  · have hqe : q = 2 := (Nat.prime_dvd_prime_iff_eq hq (by norm_num)).mp h
    subst hqe; exact castPow_ne_one_of_powMod _ _ _ (by norm_num) (by decide)
  rcases dvd_or_of_prime_mul hq h with h | h
  · have hqe : q = 5 := (Nat.prime_dvd_prime_iff_eq hq (by norm_num)).mp h
    subst hqe; exact castPow_ne_one_of_powMod _ _ _ (by norm_num) (by decide)
  rcases dvd_or_of_prime_mul hq h with h | h
  · have hqe : q = 971 := (Nat.prime_dvd_prime_iff_eq hq (by norm_num)).mp h
    subst hqe; exact castPow_ne_one_of_powMod _ _ _ (by norm_num) (by decide)
  · have hqe : q = 1373 := (Nat.prime_dvd_prime_iff_eq hq (by norm_num)).mp h
    subst hqe; exact castPow_ne_one_of_powMod _ _ _ (by norm_num) (by decide)

/-- Pratt certificate for 1206781 (member of the field-prime certificate chain). -/
theorem prime_1206781 : Nat.Prime 1206781 := by
  have hp : (1206781 : Nat) - 1 = 2 ^ 2 * (3 * (5 * 20113)) := by norm_num
  refine lucas_primality _ ((10 : Nat) : ZMod 1206781)
    (castPow_eq_one_of_powMod _ _ _ (by norm_num) (by decide)) ?_
  intro q hq hdvd
  rw [hp] at hdvd
  rcases dvd_or_of_prime_mul hq hdvd with h | h
  · have hqe : q = 2 := prime_eq_of_dvd_pow hq (by norm_num) h
    subst hqe; exact castPow_ne_one_of_powMod _ _ _ (by norm_num) (by decide)
  rcases dvd_or_of_prime_mul hq h with h | h
  · have hqe : q = 3 := (Nat.prime_dvd_prime_iff_eq hq (by norm_num)).mp h
    subst hqe; exact castPow_ne_one_of_powMod _ _ _ (by norm_num) (by decide)
  rcases dvd_or_of_prime_mul hq h with h | h
  · have hqe : q = 5 := (Nat.prime_dvd_prime_iff_eq hq (by norm_num)).mp h
    subst hqe; exact castPow_ne_one_of_powMod _ _ _ (by norm_num) (by decide)
  · have hqe : q = 20113 := (Nat.prime_dvd_prime_iff_eq hq (by norm_num)).mp h
    subst hqe; exact castPow_ne_one_of_powMod _ _ _ (by norm_num) (by decide)

/-- Pratt certificate for 7240687 (member of the field-prime certificate chain). -/
theorem prime_7240687 : Nat.Prime 7240687 := by
  have hp : (7240687 : Nat) - 1 = 2 * (3 * 1206781) := by norm_num
  refine lucas_primality _ ((3 : Nat) : ZMod 7240687)
    (castPow_eq_one_of_powMod _ _ _ (by norm_num) (by decide)) ?_
  intro q hq hdvd
  rw [hp] at hdvd
  rcases dvd_or_of_prime_mul hq hdvd with h | h
  · have hqe : q = 2 := (Nat.prime_dvd_prime_iff_eq hq (by norm_num)).mp h
    subst hqe; exact castPow_ne_one_of_powMod _ _ _ (by norm_num) (by decide)
  rcases dvd_or_of_prime_mul hq h with h | h
  · have hqe : q = 3 := (Nat.prime_dvd_prime_iff_eq hq (by norm_num)).mp h
    subst hqe; exact castPow_ne_one_of_powMod _ _ _ (by norm_num) (by decide)
  · have hqe : q = 1206781 := (Nat.prime_dvd_prime_iff_eq hq prime_1206781).mp h
    subst hqe; exact castPow_ne_one_of_powMod _ _ _ (by norm_num) (by decide)

/-- Pratt certificate for 297159362677 (member of the order-n certificate chain). -/
theorem prime_297159362677 : Nat.Prime 297159362677 := by
  have hp : (297159362677 : Nat) - 1 = 2 ^ 2 * (3 ^ 2 * (11 * (461 * 1627771))) := by norm_num
  refine lucas_primality _ ((2 : Nat) : ZMod 297159362677)
    (castPow_eq_one_of_powMod _ _ _ (by norm_num) (by decide)) ?_
  intro q hq hdvd
  rw [hp] at hdvd
  rcases dvd_or_of_prime_mul hq hdvd with h | h
  · have hqe : q = 2 := prime_eq_of_dvd_pow hq (by norm_num) h
    subst hqe; exact castPow_ne_one_of_powMod _ _ _ (by norm_num) (by decide)
  rcases dvd_or_of_prime_mul hq h with h | h
  · have hqe : q = 3 := prime_eq_of_dvd_pow hq (by norm_num) h
    subst hqe; exact castPow_ne_one_of_powMod _ _ _ (by norm_num) (by decide)
  rcases dvd_or_of_prime_mul hq h with h | h
  · have hqe : q = 11 := (Nat.prime_dvd_prime_iff_eq hq (by norm_num)).mp h
    subst hqe; exact castPow_ne_one_of_powMod _ _ _ (by norm_num) (by decide)
  rcases dvd_or_of_prime_mul hq h with h | h
  · have hqe : q = 461 := (Nat.prime_dvd_prime_iff_eq hq (by norm_num)).mp h
    subst hqe; exact castPow_ne_one_of_powMod _ _ _ (by norm_num) (by decide)
  · have hqe : q = 1627771 := (Nat.prime_dvd_prime_iff_eq hq prime_1627771).mp h
    subst hqe; exact castPow_ne_one_of_powMod _ _ _ (by norm_num) (by decide)

/-- Pratt certificate for a 29-digit prime in the order-n certificate chain. -/
theorem prime_q29 : Nat.Prime 29047611873442575647497758179 := by
  have hp : (29047611873442575647497758179 : Nat) - 1 =
      2 * (293 * (305873 * (545358713 * 297159362677))) := by norm_num
  refine lucas_primality _ ((2 : Nat) : ZMod 29047611873442575647497758179)
    (castPow_eq_one_of_powMod _ _ _ (by norm_num) (by decide)) ?_
  intro q hq hdvd
  rw [hp] at hdvd
  rcases dvd_or_of_prime_mul hq hdvd with h | h
  · have hqe : q = 2 := (Nat.prime_dvd_prime_iff_eq hq (by norm_num)).mp h
    subst hqe; exact castPow_ne_one_of_powMod _ _ _ (by norm_num) (by decide)
  rcases dvd_or_of_prime_mul hq h with h | h
  · have hqe : q = 293 := (Nat.prime_dvd_prime_iff_eq hq (by norm_num)).mp h
    subst hqe; exact castPow_ne_one_of_powMod _ _ _ (by norm_num) (by decide)
  rcases dvd_or_of_prime_mul hq h with h | h
  · have hqe : q = 305873 := (Nat.prime_dvd_prime_iff_eq hq (by norm_num)).mp h
    subst hqe; exact castPow_ne_one_of_powMod _ _ _ (by norm_num) (by decide)
  rcases dvd_or_of_prime_mul hq h with h | h
  · have hqe : q = 545358713 := (Nat.prime_dvd_prime_iff_eq hq prime_545358713).mp h
    subst hqe; exact castPow_ne_one_of_powMod _ _ _ (by norm_num) (by decide)
  · have hqe : q = 297159362677 := (Nat.prime_dvd_prime_iff_eq hq prime_297159362677).mp h
    subst hqe; exact castPow_ne_one_of_powMod _ _ _ (by norm_num) (by decide)

end Secp

namespace Secp

/-- Pratt certificate for the 33-digit prime factor of n - 1. -/
theorem prime_q33 : Nat.Prime 341948486974166000522343609283189 := by
  have hp : (341948486974166000522343609283189 : Nat) - 1 =
      2 ^ 2 * (3 ^ 3 * (109 * 29047611873442575647497758179)) := by norm_num
  refine lucas_primality _ ((2 : Nat) : ZMod 341948486974166000522343609283189)
    (castPow_eq_one_of_powMod _ _ _ (by norm_num) (by decide)) ?_
  intro q hq hdvd
  rw [hp] at hdvd
  rcases dvd_or_of_prime_mul hq hdvd with h | h
  · have hqe : q = 2 := prime_eq_of_dvd_pow hq (by norm_num) h
    subst hqe; exact castPow_ne_one_of_powMod _ _ _ (by norm_num) (by decide)
  rcases dvd_or_of_prime_mul hq h with h | h
  · have hqe : q = 3 := prime_eq_of_dvd_pow hq (by norm_num) h
    subst hqe; exact castPow_ne_one_of_powMod _ _ _ (by norm_num) (by decide)
  rcases dvd_or_of_prime_mul hq h with h | h
  · have hqe : q = 109 := (Nat.prime_dvd_prime_iff_eq hq (by norm_num)).mp h
    subst hqe; exact castPow_ne_one_of_powMod _ _ _ (by norm_num) (by decide)
  · have hqe : q = 29047611873442575647497758179 :=
      (Nat.prime_dvd_prime_iff_eq hq prime_q29).mp h
    subst hqe; exact castPow_ne_one_of_powMod _ _ _ (by norm_num) (by decide)

/-- Pratt certificate for the 21-digit prime factor of n - 1. -/
theorem prime_q21 : Nat.Prime 174723607534414371449 := by
  have hp : (174723607534414371449 : Nat) - 1 =
      2 ^ 3 * (17 * (59 * (4051 * (120233 * 44706919)))) := by norm_num
  refine lucas_primality _ ((3 : Nat) : ZMod 174723607534414371449)
    (castPow_eq_one_of_powMod _ _ _ (by norm_num) (by decide)) ?_
  intro q hq hdvd
  rw [hp] at hdvd
  rcases dvd_or_of_prime_mul hq hdvd with h | h
  · have hqe : q = 2 := prime_eq_of_dvd_pow hq (by norm_num) h
    subst hqe; exact castPow_ne_one_of_powMod _ _ _ (by norm_num) (by decide)
  rcases dvd_or_of_prime_mul hq h with h | h
  · have hqe : q = 17 := (Nat.prime_dvd_prime_iff_eq hq (by norm_num)).mp h
    subst hqe; exact castPow_ne_one_of_powMod _ _ _ (by norm_num) (by decide)
  rcases dvd_or_of_prime_mul hq h with h | h
  · have hqe : q = 59 := (Nat.prime_dvd_prime_iff_eq hq (by norm_num)).mp h
    subst hqe; exact castPow_ne_one_of_powMod _ _ _ (by norm_num) (by decide)
  rcases dvd_or_of_prime_mul hq h with h | h
  · have hqe : q = 4051 := (Nat.prime_dvd_prime_iff_eq hq (by norm_num)).mp h
    subst hqe; exact castPow_ne_one_of_powMod _ _ _ (by norm_num) (by decide)
  rcases dvd_or_of_prime_mul hq h with h | h
  · have hqe : q = 120233 := (Nat.prime_dvd_prime_iff_eq hq (by norm_num)).mp h
    subst hqe; exact castPow_ne_one_of_powMod _ _ _ (by norm_num) (by decide)
  · have hqe : q = 44706919 := (Nat.prime_dvd_prime_iff_eq hq prime_44706919).mp h
    subst hqe; exact castPow_ne_one_of_powMod _ _ _ (by norm_num) (by decide)

/-- Pratt certificate for the 18-digit prime factor of n - 1. -/
theorem prime_q18 : Nat.Prime 107361793816595537 := by
  have hp : (107361793816595537 : Nat) - 1 =
      2 ^ 4 * (16699 * (85831 * 4681609)) := by norm_num
  refine lucas_primality _ ((3 : Nat) : ZMod 107361793816595537)
    (castPow_eq_one_of_powMod _ _ _ (by norm_num) (by decide)) ?_
  intro q hq hdvd
  rw [hp] at hdvd
  rcases dvd_or_of_prime_mul hq hdvd with h | h
  · have hqe : q = 2 := prime_eq_of_dvd_pow hq (by norm_num) h
    subst hqe; exact castPow_ne_one_of_powMod _ _ _ (by norm_num) (by decide)
  rcases dvd_or_of_prime_mul hq h with h | h
  · have hqe : q = 16699 := (Nat.prime_dvd_prime_iff_eq hq (by norm_num)).mp h
    subst hqe; exact castPow_ne_one_of_powMod _ _ _ (by norm_num) (by decide)
  rcases dvd_or_of_prime_mul hq h with h | h
  · have hqe : q = 85831 := (Nat.prime_dvd_prime_iff_eq hq (by norm_num)).mp h
    subst hqe; exact castPow_ne_one_of_powMod _ _ _ (by norm_num) (by decide)
  · have hqe : q = 4681609 := (Nat.prime_dvd_prime_iff_eq hq prime_4681609).mp h
    subst hqe; exact castPow_ne_one_of_powMod _ _ _ (by norm_num) (by decide)

/-- The secp256k1 group order. -/
def N : Nat := 115792089237316195423570985008687907852837564279074904382605163141518161494337

/-- Pratt certificate for the secp256k1 group order n. -/
theorem N_prime : Nat.Prime N := by
  have hp : N - 1 =
      2 ^ 6 * (3 * (149 * (631 * (107361793816595537 *
        (174723607534414371449 * 341948486974166000522343609283189))))) := by norm_num [N]
  refine lucas_primality _ ((7 : Nat) : ZMod N)
    (castPow_eq_one_of_powMod _ _ _ (by norm_num [N]) (by decide)) ?_
  intro q hq hdvd
  rw [hp] at hdvd
  rcases dvd_or_of_prime_mul hq hdvd with h | h
  · have hqe : q = 2 := prime_eq_of_dvd_pow hq (by norm_num) h
    subst hqe; exact castPow_ne_one_of_powMod _ _ _ (by norm_num [N]) (by decide)
  rcases dvd_or_of_prime_mul hq h with h | h
  · have hqe : q = 3 := (Nat.prime_dvd_prime_iff_eq hq (by norm_num)).mp h
    subst hqe; exact castPow_ne_one_of_powMod _ _ _ (by norm_num [N]) (by decide)
  rcases dvd_or_of_prime_mul hq h with h | h
  · have hqe : q = 149 := (Nat.prime_dvd_prime_iff_eq hq (by norm_num)).mp h
    subst hqe; exact castPow_ne_one_of_powMod _ _ _ (by norm_num [N]) (by decide)
  rcases dvd_or_of_prime_mul hq h with h | h
  · have hqe : q = 631 := (Nat.prime_dvd_prime_iff_eq hq (by norm_num)).mp h
    subst hqe; exact castPow_ne_one_of_powMod _ _ _ (by norm_num [N]) (by decide)
  rcases dvd_or_of_prime_mul hq h with h | h
  · have hqe : q = 107361793816595537 := (Nat.prime_dvd_prime_iff_eq hq prime_q18).mp h
    subst hqe; exact castPow_ne_one_of_powMod _ _ _ (by norm_num [N]) (by decide)
  rcases dvd_or_of_prime_mul hq h with h | h
  · have hqe : q = 174723607534414371449 := (Nat.prime_dvd_prime_iff_eq hq prime_q21).mp h
    subst hqe; exact castPow_ne_one_of_powMod _ _ _ (by norm_num [N]) (by decide)
  · have hqe : q = 341948486974166000522343609283189 :=
      (Nat.prime_dvd_prime_iff_eq hq prime_q33).mp h
    subst hqe; exact castPow_ne_one_of_powMod _ _ _ (by norm_num [N]) (by decide)

end Secp

namespace Secp

/-- Pratt certificate for 107590001 (member of the field-prime certificate chain). -/
theorem prime_107590001 : Nat.Prime 107590001 := by
  have hp : (107590001 : Nat) - 1 = 2 ^ 4 * (5 ^ 4 * (7 * (29 * 53))) := by norm_num
  refine lucas_primality _ ((3 : Nat) : ZMod 107590001)
    (castPow_eq_one_of_powMod _ _ _ (by norm_num) (by decide)) ?_
  intro q hq hdvd
  rw [hp] at hdvd
  rcases dvd_or_of_prime_mul hq hdvd with h | h
  · have hqe : q = 2 := prime_eq_of_dvd_pow hq (by norm_num) h
    subst hqe; exact castPow_ne_one_of_powMod _ _ _ (by norm_num) (by decide)
  rcases dvd_or_of_prime_mul hq h with h | h
  · have hqe : q = 5 := prime_eq_of_dvd_pow hq (by norm_num) h
    subst hqe; exact castPow_ne_one_of_powMod _ _ _ (by norm_num) (by decide)
  rcases dvd_or_of_prime_mul hq h with h | h
  · have hqe : q = 7 := (Nat.prime_dvd_prime_iff_eq hq (by norm_num)).mp h
    subst hqe; exact castPow_ne_one_of_powMod _ _ _ (by norm_num) (by decide)
  rcases dvd_or_of_prime_mul hq h with h | h
  · have hqe : q = 29 := (Nat.prime_dvd_prime_iff_eq hq (by norm_num)).mp h
    subst hqe; exact castPow_ne_one_of_powMod _ _ _ (by norm_num) (by decide)
  · have hqe : q = 53 := (Nat.prime_dvd_prime_iff_eq hq (by norm_num)).mp h
    subst hqe; exact castPow_ne_one_of_powMod _ _ _ (by norm_num) (by decide)

/-- Pratt certificate for 173378833005251801 (field-prime certificate chain). -/
theorem prime_173378833005251801 : Nat.Prime 173378833005251801 := by
  have hp : (173378833005251801 : Nat) - 1 =
      2 ^ 3 * (5 ^ 2 * (2621 * (24809 * 13331831))) := by norm_num
  refine lucas_primality _ ((6 : Nat) : ZMod 173378833005251801)
    (castPow_eq_one_of_powMod _ _ _ (by norm_num) (by decide)) ?_
  intro q hq hdvd
  rw [hp] at hdvd
  rcases dvd_or_of_prime_mul hq hdvd with h | h
  · have hqe : q = 2 := prime_eq_of_dvd_pow hq (by norm_num) h
    subst hqe; exact castPow_ne_one_of_powMod _ _ _ (by norm_num) (by decide)
  rcases dvd_or_of_prime_mul hq h with h | h
  · have hqe : q = 5 := prime_eq_of_dvd_pow hq (by norm_num) h
    subst hqe; exact castPow_ne_one_of_powMod _ _ _ (by norm_num) (by decide)
  rcases dvd_or_of_prime_mul hq h with h | h
  · have hqe : q = 2621 := (Nat.prime_dvd_prime_iff_eq hq (by norm_num)).mp h
    subst hqe; exact castPow_ne_one_of_powMod _ _ _ (by norm_num) (by decide)
  rcases dvd_or_of_prime_mul hq h with h | h
  · have hqe : q = 24809 := (Nat.prime_dvd_prime_iff_eq hq (by norm_num)).mp h
    subst hqe; exact castPow_ne_one_of_powMod _ _ _ (by norm_num) (by decide)
  · have hqe : q = 13331831 := (Nat.prime_dvd_prime_iff_eq hq prime_13331831).mp h
    subst hqe; exact castPow_ne_one_of_powMod _ _ _ (by norm_num) (by decide)

/-- Pratt certificate for 22149492674086928081353 (field-prime certificate chain). -/
theorem prime_22149492674086928081353 : Nat.Prime 22149492674086928081353 := by
  have hp : (22149492674086928081353 : Nat) - 1 =
      2 ^ 3 * (3 * (5323 * 173378833005251801)) := by norm_num
  refine lucas_primality _ ((5 : Nat) : ZMod 22149492674086928081353)
    (castPow_eq_one_of_powMod _ _ _ (by norm_num) (by decide)) ?_
  intro q hq hdvd
  rw [hp] at hdvd
  rcases dvd_or_of_prime_mul hq hdvd with h | h
  · have hqe : q = 2 := prime_eq_of_dvd_pow hq (by norm_num) h
    subst hqe; exact castPow_ne_one_of_powMod _ _ _ (by norm_num) (by decide)
  rcases dvd_or_of_prime_mul hq h with h | h
  · have hqe : q = 3 := (Nat.prime_dvd_prime_iff_eq hq (by norm_num)).mp h
    subst hqe; exact castPow_ne_one_of_powMod _ _ _ (by norm_num) (by decide)
  rcases dvd_or_of_prime_mul hq h with h | h
  · have hqe : q = 5323 := (Nat.prime_dvd_prime_iff_eq hq (by norm_num)).mp h
    subst hqe; exact castPow_ne_one_of_powMod _ _ _ (by norm_num) (by decide)
  · have hqe : q = 173378833005251801 :=
      (Nat.prime_dvd_prime_iff_eq hq prime_173378833005251801).mp h
    subst hqe; exact castPow_ne_one_of_powMod _ _ _ (by norm_num) (by decide)

/-- Pratt certificate for the 24-digit prime factor in the field-prime chain. -/
theorem prime_p24 : Nat.Prime 132896956044521568488119 := by
  have hp : (132896956044521568488119 : Nat) - 1 =
      2 * (3 * 22149492674086928081353) := by norm_num
  refine lucas_primality _ ((6 : Nat) : ZMod 132896956044521568488119)
    (castPow_eq_one_of_powMod _ _ _ (by norm_num) (by decide)) ?_
  intro q hq hdvd
  rw [hp] at hdvd
  rcases dvd_or_of_prime_mul hq hdvd with h | h
  · have hqe : q = 2 := (Nat.prime_dvd_prime_iff_eq hq (by norm_num)).mp h
    subst hqe; exact castPow_ne_one_of_powMod _ _ _ (by norm_num) (by decide)
  rcases dvd_or_of_prime_mul hq h with h | h
  · have hqe : q = 3 := (Nat.prime_dvd_prime_iff_eq hq (by norm_num)).mp h
    subst hqe; exact castPow_ne_one_of_powMod _ _ _ (by norm_num) (by decide)
  · have hqe : q = 22149492674086928081353 :=
      (Nat.prime_dvd_prime_iff_eq hq prime_22149492674086928081353).mp h
    subst hqe; exact castPow_ne_one_of_powMod _ _ _ (by norm_num) (by decide)

end Secp

namespace Secp

/-- Pratt certificate for the 39-digit prime factor in the field-prime chain. -/
theorem prime_p39 : Nat.Prime 255515944373312847190720520512484175977 := by
  have hp : (255515944373312847190720520512484175977 : Nat) - 1 =
      2 ^ 3 * (7 ^ 2 * (11 * (1627 * (2657 * (4423 * (41201 *
        (96557 * (7240687 * 107590001)))))))) := by norm_num
  refine lucas_primality _ ((3 : Nat) : ZMod 255515944373312847190720520512484175977)
    (castPow_eq_one_of_powMod _ _ _ (by norm_num) (by decide)) ?_
  intro q hq hdvd
  rw [hp] at hdvd
  rcases dvd_or_of_prime_mul hq hdvd with h | h
  · have hqe : q = 2 := prime_eq_of_dvd_pow hq (by norm_num) h
    subst hqe; exact castPow_ne_one_of_powMod _ _ _ (by norm_num) (by decide)
  rcases dvd_or_of_prime_mul hq h with h | h
  · have hqe : q = 7 := prime_eq_of_dvd_pow hq (by norm_num) h
    subst hqe; exact castPow_ne_one_of_powMod _ _ _ (by norm_num) (by decide)
  rcases dvd_or_of_prime_mul hq h with h | h
  · have hqe : q = 11 := (Nat.prime_dvd_prime_iff_eq hq (by norm_num)).mp h
    subst hqe; exact castPow_ne_one_of_powMod _ _ _ (by norm_num) (by decide)
  rcases dvd_or_of_prime_mul hq h with h | h
  · have hqe : q = 1627 := (Nat.prime_dvd_prime_iff_eq hq (by norm_num)).mp h
    subst hqe; exact castPow_ne_one_of_powMod _ _ _ (by norm_num) (by decide)
  rcases dvd_or_of_prime_mul hq h with h | h
  · have hqe : q = 2657 := (Nat.prime_dvd_prime_iff_eq hq (by norm_num)).mp h
    subst hqe; exact castPow_ne_one_of_powMod _ _ _ (by norm_num) (by decide)
  rcases dvd_or_of_prime_mul hq h with h | h
  · have hqe : q = 4423 := (Nat.prime_dvd_prime_iff_eq hq (by norm_num)).mp h
    subst hqe; exact castPow_ne_one_of_powMod _ _ _ (by norm_num) (by decide)
  rcases dvd_or_of_prime_mul hq h with h | h
  · have hqe : q = 41201 := (Nat.prime_dvd_prime_iff_eq hq (by norm_num)).mp h
    subst hqe; exact castPow_ne_one_of_powMod _ _ _ (by norm_num) (by decide)
  rcases dvd_or_of_prime_mul hq h with h | h
  · have hqe : q = 96557 := (Nat.prime_dvd_prime_iff_eq hq (by norm_num)).mp h
    subst hqe; exact castPow_ne_one_of_powMod _ _ _ (by norm_num) (by decide)
  rcases dvd_or_of_prime_mul hq h with h | h
  · have hqe : q = 7240687 := (Nat.prime_dvd_prime_iff_eq hq prime_7240687).mp h
    subst hqe; exact castPow_ne_one_of_powMod _ _ _ (by norm_num) (by decide)
  · have hqe : q = 107590001 := (Nat.prime_dvd_prime_iff_eq hq prime_107590001).mp h
    subst hqe; exact castPow_ne_one_of_powMod _ _ _ (by norm_num) (by decide)

/-- Pratt certificate for the 72-digit prime factor of p - 1. -/
theorem prime_q72 :
    Nat.Prime 205115282021455665897114700593932402728804164701536103180137503955397371 := by
  have hp : (205115282021455665897114700593932402728804164701536103180137503955397371 :
      Nat) - 1 =
      2 * (3 * (5 * (29 ^ 2 * (31 * (7723 * (132896956044521568488119 *
        255515944373312847190720520512484175977)))))) := by norm_num
  refine lucas_primality _
    ((10 : Nat) : ZMod 205115282021455665897114700593932402728804164701536103180137503955397371)
    (castPow_eq_one_of_powMod _ _ _ (by norm_num) (by decide)) ?_
  intro q hq hdvd
  rw [hp] at hdvd
  rcases dvd_or_of_prime_mul hq hdvd with h | h
  · have hqe : q = 2 := (Nat.prime_dvd_prime_iff_eq hq (by norm_num)).mp h
    subst hqe; exact castPow_ne_one_of_powMod _ _ _ (by norm_num) (by decide)
  rcases dvd_or_of_prime_mul hq h with h | h
  · have hqe : q = 3 := (Nat.prime_dvd_prime_iff_eq hq (by norm_num)).mp h
    subst hqe; exact castPow_ne_one_of_powMod _ _ _ (by norm_num) (by decide)
  rcases dvd_or_of_prime_mul hq h with h | h
  · have hqe : q = 5 := (Nat.prime_dvd_prime_iff_eq hq (by norm_num)).mp h
    subst hqe; exact castPow_ne_one_of_powMod _ _ _ (by norm_num) (by decide)
  rcases dvd_or_of_prime_mul hq h with h | h
  · have hqe : q = 29 := prime_eq_of_dvd_pow hq (by norm_num) h
    subst hqe; exact castPow_ne_one_of_powMod _ _ _ (by norm_num) (by decide)
  rcases dvd_or_of_prime_mul hq h with h | h
  · have hqe : q = 31 := (Nat.prime_dvd_prime_iff_eq hq (by norm_num)).mp h
    subst hqe; exact castPow_ne_one_of_powMod _ _ _ (by norm_num) (by decide)
  rcases dvd_or_of_prime_mul hq h with h | h
  · have hqe : q = 7723 := (Nat.prime_dvd_prime_iff_eq hq (by norm_num)).mp h
    subst hqe; exact castPow_ne_one_of_powMod _ _ _ (by norm_num) (by decide)
  rcases dvd_or_of_prime_mul hq h with h | h
  · have hqe : q = 132896956044521568488119 :=
      (Nat.prime_dvd_prime_iff_eq hq prime_p24).mp h
    subst hqe; exact castPow_ne_one_of_powMod _ _ _ (by norm_num) (by decide)
  · have hqe : q = 255515944373312847190720520512484175977 :=
      (Nat.prime_dvd_prime_iff_eq hq prime_p39).mp h
    subst hqe; exact castPow_ne_one_of_powMod _ _ _ (by norm_num) (by decide)

/-- The secp256k1 field prime. -/
def P : Nat := 115792089237316195423570985008687907853269984665640564039457584007908834671663

/-- Pratt certificate for the secp256k1 field prime p. -/
theorem P_prime : Nat.Prime P := by
  have hp : P - 1 =
      2 * (3 * (7 * (13441 *
        205115282021455665897114700593932402728804164701536103180137503955397371))) := by
    norm_num [P]
  refine lucas_primality _ ((3 : Nat) : ZMod P)
    (castPow_eq_one_of_powMod _ _ _ (by norm_num [P]) (by decide)) ?_
  intro q hq hdvd
  rw [hp] at hdvd
  rcases dvd_or_of_prime_mul hq hdvd with h | h
  · have hqe : q = 2 := (Nat.prime_dvd_prime_iff_eq hq (by norm_num)).mp h
    subst hqe; exact castPow_ne_one_of_powMod _ _ _ (by norm_num [P]) (by decide)
  rcases dvd_or_of_prime_mul hq h with h | h
  · have hqe : q = 3 := (Nat.prime_dvd_prime_iff_eq hq (by norm_num)).mp h
    subst hqe; exact castPow_ne_one_of_powMod _ _ _ (by norm_num [P]) (by decide)
  rcases dvd_or_of_prime_mul hq h with h | h
  · have hqe : q = 7 := (Nat.prime_dvd_prime_iff_eq hq (by norm_num)).mp h
    subst hqe; exact castPow_ne_one_of_powMod _ _ _ (by norm_num [P]) (by decide)
  rcases dvd_or_of_prime_mul hq h with h | h
  · have hqe : q = 13441 := (Nat.prime_dvd_prime_iff_eq hq (by norm_num)).mp h
    subst hqe; exact castPow_ne_one_of_powMod _ _ _ (by norm_num [P]) (by decide)
  · have hqe : q = 205115282021455665897114700593932402728804164701536103180137503955397371 :=
      (Nat.prime_dvd_prime_iff_eq hq prime_q72).mp h
    subst hqe; exact castPow_ne_one_of_powMod _ _ _ (by norm_num [P]) (by decide)

theorem N_pos : 0 < N := by norm_num [N]

theorem P_pos : 0 < P := by norm_num [P]

end Secp

namespace Secp

/-- The number of 32-byte big-endian values; a 32-byte array is modelled by
its big-endian value, a natural number below this bound. -/
def B256 : Nat := 2 ^ 256

/-- x-coordinate of the fixed generator point G. -/
def Gx : Nat := 0x79BE667EF9DCBBAC55A06295CE870B07029BFCDB2DCE28D959F2815B16F81798

/-- y-coordinate of the fixed generator point G. -/
def Gy : Nat := 0x483ADA7726A3C4655DA4FBFC0E1108A8FD17B448A68554199C47D08FFB10D4B8

/-- Error kinds of the library (error.rs is outside the provided sources;
the variants used by keys.rs and message.rs are InvalidSecretKey,
InvalidPublicKey and InvalidMessage). -/
inductive Error where
  | InvalidSecretKey
  | InvalidPublicKey
  | InvalidMessage
  | InvalidSignature
  | InvalidInputLength
  deriving DecidableEq

/-- Decidable equality for Except results, used to evaluate the embedding
on concrete inputs. -/
instance exceptDecEq {e a : Type} [DecidableEq e] [DecidableEq a] :
    DecidableEq (Except e a)
  | Except.ok x, Except.ok y =>
      if h : x = y then isTrue (by rw [h])
      else isFalse (by intro hc; injection hc; contradiction)
  | Except.ok x, Except.error v => isFalse (by intro hc; cases hc)
  | Except.error u, Except.ok y => isFalse (by intro hc; cases hc)
  | Except.error u, Except.error v =>
      if h : u = v then isTrue (by rw [h])
      else isFalse (by intro hc; injection hc; contradiction)

/-- Modelled from the spec: an affine curve point is either the point at
infinity or a pair of field-element coordinates, each reduced into [0, p). -/
abbrev Point := Option (Nat × Nat)

/-- Modelled from the spec: field-element multiplicative inverse, computed
as a^(p-2) mod p (Fermat); yields zero on the zero element. -/
def fInv (a : Nat) : Nat := powMod a (P - 2) P

/-- Modelled from the spec: field-element square root, computed as
a^((p+1)/4) mod p, valid because p ≡ 3 (mod 4); the caller must check the
square of the result. -/
def fSqrt (a : Nat) : Nat := powMod a ((P + 1) / 4) P

/-- Slope of the tangent line at (x1, y1): 3·x1² / (2·y1). -/
def tangentSlope (x1 y1 : Nat) : Nat := 3 * (x1 * x1) % P * fInv (2 * y1 % P) % P

/-- Slope of the chord through (x1, y1) and (x2, y2): (y1 - y2)/(x1 - x2). -/
def chordSlope (x1 y1 x2 y2 : Nat) : Nat :=
  (y1 + (P - y2)) % P * fInv ((x1 + (P - x2)) % P) % P

/-- x-coordinate of the chord-tangent sum: l² - x1 - x2. -/
def chordX (l x1 x2 : Nat) : Nat := (l * l + (P - x1) + (P - x2)) % P

/-- y-coordinate of the chord-tangent sum: l·(x1 - x3) - y1. -/
def chordY (l x1 x3 y1 : Nat) : Nat := (l * ((x1 + (P - x3)) % P) + (P - y1)) % P

/-- Modelled from the spec: affine point addition on the curve
y² = x³ + 7 by the chord-tangent rule (point add / double of §4.2). -/
def pointAdd : Point → Point → Point
  | none, q => q
  | some pt, none => some pt
  | some (x1, y1), some (x2, y2) =>
      if x1 = x2 then
        if (y1 + y2) % P = 0 then none
        else
          let l := tangentSlope x1 y1
          let x3 := chordX l x1 x2
          some (x3, chordY l x1 x3 y1)
      else
        let l := chordSlope x1 y1 x2 y2
        let x3 := chordX l x1 x2
        some (x3, chordY l x1 x3 y1)

/-- Binary double-and-add loop for scalar-point multiplication. -/
def pointMulGo : Nat → Nat → Point → Point → Point
  | 0, _, _, acc => acc
  | f + 1, k, base, acc =>
      if k = 0 then acc
      else pointMulGo f (k / 2) (pointAdd base base)
        (if k % 2 = 1 then pointAdd acc base else acc)

/-- Modelled from the spec: the multiplication contexts of §4.3, computing
scalar · point; the generator context is pointMul applied to G, the general
context is pointMul applied to an arbitrary point. -/
def pointMul (k : Nat) (pt : Point) : Point := pointMulGo k k pt none

/-- The fixed generator point. -/
def G : Point := some (Gx, Gy)

/-- Secret key: wraps one scalar (integer mod n, kept reduced). -/
structure SecretKey where
  s : Nat
  deriving DecidableEq

/-- Public key: wraps one affine point. -/
structure PublicKey where
  pt : Point
  deriving DecidableEq

/-- Hashed message input to an ECDSA signature: wraps one scalar. -/
structure Message where
  m : Nat
  deriving DecidableEq

/-- ECDSA-style signature: two scalars (r, s). -/
structure Signature where
  r : Nat
  s : Nat
  deriving DecidableEq

/-- Recovery id: a small integer code. -/
structure RecoveryId where
  id : Nat
  deriving DecidableEq

/-- SecretKey::parse: read a 32-byte array (big-endian value v) into a
secret key. Scalar::set_b32 reduces v mod n reporting overflow (v ≥ n);
the key is accepted when there is no overflow and the scalar is nonzero. -/
def SecretKey.parse (v : Nat) : Except Error SecretKey :=
  let elem := v % N
  let overflow := N ≤ v
  if ¬ overflow ∧ ¬ elem = 0 then Except.ok ⟨elem⟩
  else Except.error Error.InvalidSecretKey

/-- SecretKey::serialize: the 32-byte array (as its big-endian value) of
the reduced scalar. -/
def SecretKey.serialize (k : SecretKey) : Nat := k.s

/-- Add for SecretKey: scalar addition mod n, no revalidation. -/
def SecretKey.add (a b : SecretKey) : SecretKey := ⟨(a.s + b.s) % N⟩

/-- Mul for SecretKey: scalar multiplication mod n, no revalidation. -/
def SecretKey.mul (a b : SecretKey) : SecretKey := ⟨a.s * b.s % N⟩

/-- Neg for SecretKey: scalar negation mod n. -/
def SecretKey.neg (a : SecretKey) : SecretKey := ⟨(N - a.s) % N⟩

/-- Modelled from the spec: scalar multiplicative inverse (§4.1 invert),
used by the example through e.inv(); computed as a^(n-2) mod n. -/
def SecretKey.inv (a : SecretKey) : SecretKey := ⟨powMod a.s (N - 2) N⟩

/-- PublicKey::from_secret_key: P = k·G through the generator context. -/
def PublicKey.from_secret_key (k : SecretKey) : PublicKey := ⟨pointMul k.s G⟩

/-- Mul of a SecretKey with a PublicKey: general-context point multiply. -/
def SecretKey.mulPubkey (k : SecretKey) (q : PublicKey) : PublicKey :=
  ⟨pointMul k.s q.pt⟩

/-- Add for PublicKey: point addition. -/
def PublicKey.add (a b : PublicKey) : PublicKey := ⟨pointAdd a.pt b.pt⟩

/-- A 65-byte array, modelled as tag byte plus the big-endian values of the
two 32-byte coordinate fields. -/
structure Bytes65 where
  tag : Nat
  x : Nat
  y : Nat
  deriving DecidableEq

/-- A 33-byte array, modelled as tag byte plus the big-endian value of the
32-byte x-coordinate field. -/
structure Bytes33 where
  tag : Nat
  x : Nat
  deriving DecidableEq

/-- PublicKey::parse: 65-byte uncompressed/hybrid encoding. The tag must be
4, 6 or 7; x and y must read as field elements without overflow; for the
hybrid tags the claimed parity must match y; the point must not be infinity
and must satisfy the curve equation. -/
def PublicKey.parse (b : Bytes65) : Except Error PublicKey :=
  if ¬ (b.tag = 4 ∨ b.tag = 6 ∨ b.tag = 7) then Except.error Error.InvalidPublicKey
  else if P ≤ b.x then Except.error Error.InvalidPublicKey
  else if P ≤ b.y then Except.error Error.InvalidPublicKey
  else if (b.tag = 6 ∨ b.tag = 7) ∧ ¬ (b.y % 2 = 1 ↔ b.tag = 7) then
    Except.error Error.InvalidPublicKey
  else if (some (b.x, b.y) : Point) = none then Except.error Error.InvalidPublicKey
  else if b.y * b.y % P = (b.x * b.x * b.x + 7) % P then Except.ok ⟨some (b.x, b.y)⟩
  else Except.error Error.InvalidPublicKey

/-- PublicKey::serialize: 65-byte serialization; the tag byte is always
0x04. The Rust code asserts the point is not infinity; the model emits
zero coordinates in that (unreachable for parsed keys) case. -/
def PublicKey.serialize (k : PublicKey) : Bytes65 :=
  match k.pt with
  | some (x, y) => ⟨4, x, y⟩
  | none => ⟨4, 0, 0⟩

/-- The square-root candidate of set_xo_var: a solution y of
y² = x³ + 7 when one exists (to be checked by squaring). -/
def sqrtCand (x : Nat) : Nat := fSqrt ((x * x * x + 7) % P)

/-- The parity-adjusted y-coordinate recovered by set_xo_var: the square
root, negated when its parity differs from the parity the tag claims. -/
def xoY (x tag : Nat) : Nat :=
  if (sqrtCand x % 2 = 1) = (tag = 3) then sqrtCand x else (P - sqrtCand x) % P

/-- PublicKey::parse_compressed: 33-byte compressed encoding. The tag must
be 2 or 3; x must read without overflow; the y-coordinate is recovered by
set_xo_var (square root plus parity adjustment, failing when x³ + 7 is not
a square); the point must not be infinity and must satisfy the curve
equation. -/
def PublicKey.parse_compressed (b : Bytes33) : Except Error PublicKey :=
  if ¬ (b.tag = 2 ∨ b.tag = 3) then Except.error Error.InvalidPublicKey
  else if P ≤ b.x then Except.error Error.InvalidPublicKey
  else if ¬ (sqrtCand b.x * sqrtCand b.x % P = (b.x * b.x * b.x + 7) % P) then
    Except.error Error.InvalidPublicKey
  else if (some (b.x, xoY b.x b.tag) : Point) = none then
    Except.error Error.InvalidPublicKey
  else if xoY b.x b.tag * xoY b.x b.tag % P = (b.x * b.x * b.x + 7) % P then
    Except.ok ⟨some (b.x, xoY b.x b.tag)⟩
  else Except.error Error.InvalidPublicKey

/-- PublicKey::serialize_compressed: 33-byte serialization; the tag byte is
2 for even y and 3 for odd y. -/
def PublicKey.serialize_compressed (k : PublicKey) : Bytes33 :=
  match k.pt with
  | some (x, y) => ⟨if y % 2 = 1 then 3 else 2, x⟩
  | none => ⟨2, 0⟩

end Secp

namespace Secp

/-- Modelled from the spec: the external hash capability
(digest bytes to a fixed 32-byte output). A concrete deterministic mixing
function stands in for SHA-256; the development relies only on the digest
being a fixed function of the input bytes. -/
def digest (bytes : List Nat) : Nat :=
  bytes.foldl
    (fun acc b => (acc * 340282366920938463463374607431768211507 + b + 1) % B256)
    7919

/-- Message::hash: digest the input, then treat the digest as key material
through SecretKey::parse to obtain the message scalar. -/
def Message.hash (b : List Nat) : Except Error Message :=
  match SecretKey.parse (digest b) with
  | Except.ok s => Except.ok ⟨s.s⟩
  | Except.error e => Except.error e

/-- Message::parse: reduce a 32-byte value directly into a scalar, with no
validity rejection. -/
def Message.parse (v : Nat) : Message := ⟨v % N⟩

/-- Message::serialize: the 32-byte value of the reduced scalar. -/
def Message.serialize (msg : Message) : Nat := msg.m

/-- Modelled from the spec: the deterministic bit generator (HMAC-DRBG)
seeded with the secret-key bytes and the message bytes; call number i
yields a deterministic 32-byte output. The concrete mixing function stands
in for HMAC-SHA256; the development relies only on determinism in
(seed, call number). -/
def drbgGenerate (seedKey seedMsg i : Nat) : Nat := digest [seedKey, seedMsg, i]

/-- The nonce-rejection loop of Message::sign: draw 32-byte outputs from
the generator starting at call i; accept the first draw that neither
overflows n nor reduces to zero. The Rust loop is unbounded; the embedding
bounds it with fuel. -/
def findNonceGo (seedKey seedMsg : Nat) : Nat → Nat → Option Nat
  | 0, _ => none
  | f + 1, i =>
      let v := drbgGenerate seedKey seedMsg i
      if ¬ N ≤ v ∧ ¬ v % N = 0 then some (v % N)
      else findNonceGo seedKey seedMsg f (i + 1)

/-- Fuel bound for the nonce-rejection loop (rejection has probability
about 2⁻¹²⁸ per draw). -/
def nonceFuel : Nat := 1000

/-- Modelled from the spec (§4.6): the raw ECDSA signing step of the
generator multiplication context (sign_raw lives outside the provided
sources). Computes R = k·G, r = R.x mod n, s = k⁻¹·(m + r·d) mod n, and
the recovery id from the parity of R.y plus whether R.x overflowed n;
fails when R is infinity or r or s is zero. -/
def sign_raw (seckey msg nonce : Nat) : Except Error (Nat × Nat × Nat) :=
  match pointMul nonce G with
  | none => Except.error Error.InvalidMessage
  | some (rx, ry) =>
      let sigr := rx % N
      let sigs := powMod nonce (N - 2) N * ((msg + sigr * seckey) % N) % N
      let recid := (if N ≤ rx then 2 else 0) + (if ry % 2 = 1 then 1 else 0)
      if sigr = 0 ∨ sigs = 0 then Except.error Error.InvalidMessage
      else Except.ok (sigr, sigs, recid)

/-- Message::sign: seed the deterministic generator with the secret-key
bytes and message bytes, run the nonce-rejection loop, then the raw
signing step; the nonce buffer is cleared afterwards (no observable effect
in the functional model). -/
def Message.sign (message : Message) (seckey : SecretKey) :
    Except Error (Signature × RecoveryId) :=
  let seckey_b32 := seckey.s
  let message_b32 := message.m
  match findNonceGo seckey_b32 message_b32 nonceFuel 0 with
  | none => Except.error Error.InvalidMessage
  | some nonce =>
      match sign_raw seckey.s message.m nonce with
      | Except.ok (sigr, sigs, recid) => Except.ok (⟨sigr, sigs⟩, ⟨recid⟩)
      | Except.error e => Except.error e

/-- The byte encoding of a public key used inside the Schnorr challenge
hash: the compressed form, as a single big-endian value. -/
def encodePoint (k : PublicKey) : Nat :=
  match k.pt with
  | some (x, y) => (if y % 2 = 1 then 3 else 2) * B256 + x
  | none => 0

/-- Modelled from the spec: the Schnorr challenge — a scalar derived by
hashing an ordered list of point/message encodings; as_scalar validates
the digest like a secret key. -/
def challengeScalar (parts : List Nat) : Except Error SecretKey :=
  SecretKey.parse (digest parts)

/-- The insecure no-nonce Schnorr signer of examples/schnorr_sig.rs:
e = Challenge(P, m), s = e·k. Returns (e, s). -/
def insecureSchnorrSign (k : SecretKey) (msg : Message) :
    Except Error (SecretKey × SecretKey) :=
  let pk := PublicKey.from_secret_key k
  match challengeScalar [encodePoint pk, msg.m] with
  | Except.ok e => Except.ok (e, SecretKey.mul e k)
  | Except.error err => Except.error err

/-- The secure randomized-nonce Schnorr signer of examples/schnorr_sig.rs:
R = nonce·G, e = Challenge(R, P, m), s = nonce + e·k. Returns (R, e, s). -/
def secureSchnorrSign (k nonce : SecretKey) (msg : Message) :
    Except Error (PublicKey × SecretKey × SecretKey) :=
  let pk := PublicKey.from_secret_key k
  let bigR := PublicKey.from_secret_key nonce
  match challengeScalar [encodePoint bigR, encodePoint pk, msg.m] with
  | Except.ok e => Except.ok (bigR, e, SecretKey.add nonce (SecretKey.mul e k))
  | Except.error err => Except.error err

end Secp

namespace Secp

instance instFactP : Fact (Nat.Prime P) := ⟨P_prime⟩

instance instFactN : Fact (Nat.Prime N) := ⟨N_prime⟩

/-- The secp256k1 curve y² = x³ + 7 as a Weierstrass curve over ZMod p. -/
def secpW : WeierstrassCurve.Affine (ZMod P) :=
  { a₁ := 0, a₂ := 0, a₃ := 0, a₄ := 0, a₆ := 7 }

theorem P_big : 21168 < P := by norm_num [P]

theorem secpW_Δ_ne_zero : secpW.Δ ≠ 0 := by
  have hΔ : secpW.Δ = -21168 := by
    simp [WeierstrassCurve.Δ, WeierstrassCurve.b₂, WeierstrassCurve.b₄,
      WeierstrassCurve.b₆, WeierstrassCurve.b₈, secpW]
    ring
  rw [hΔ]
  intro h
  have h2 : ((21168 : Nat) : ZMod P) = 0 := by
    have := neg_eq_zero.mp h
    rw [← this]
    norm_num
  rw [ZMod.natCast_zmod_eq_zero_iff_dvd] at h2
  have := Nat.le_of_dvd (by norm_num) h2
  have := P_big
  omega

theorem cast_natSub (a : Nat) (h : a ≤ P) : ((P - a : Nat) : ZMod P) = -(a : ZMod P) := by
  rw [Nat.cast_sub h, ZMod.natCast_self, zero_sub]

theorem cast_modP (a : Nat) : ((a % P : Nat) : ZMod P) = (a : ZMod P) :=
  ZMod.natCast_mod a P

theorem cast_inj_of_lt {a b : Nat} (ha : a < P) (hb : b < P)
    (h : (a : ZMod P) = (b : ZMod P)) : a = b := by
  have := congrArg ZMod.val h
  rwa [ZMod.val_cast_of_lt ha, ZMod.val_cast_of_lt hb] at this

theorem pow_sub_two_eq_inv {p : Nat} [hp : Fact p.Prime] (hp2 : 2 < p) (a : ZMod p) :
    a ^ (p - 2) = a⁻¹ := by
  by_cases ha : a = 0
  · rw [ha, inv_zero, zero_pow]
    omega
  · have h1 : a * a ^ (p - 2) = 1 := by
      rw [← pow_succ', show p - 2 + 1 = p - 1 by omega]
      exact ZMod.pow_card_sub_one_eq_one ha
    exact eq_inv_of_mul_eq_one_left (by rw [mul_comm] at h1; exact h1)

theorem fInv_cast (a : Nat) : ((fInv a : Nat) : ZMod P) = (a : ZMod P)⁻¹ := by
  rw [fInv, powMod_eq _ _ _ P_pos, cast_modP, Nat.cast_pow]
  exact pow_sub_two_eq_inv (by norm_num [P]) _

/-- The executable on-curve test used by the parsers. -/
def onCurveN (x y : Nat) : Prop := y * y % P = (x * x * x + 7) % P

theorem equation_iff_onCurveN (x y : Nat) :
    secpW.Equation (x : ZMod P) (y : ZMod P) ↔ onCurveN x y := by
  rw [WeierstrassCurve.Affine.equation_iff, onCurveN]
  have ha : secpW.a₁ = 0 := rfl
  have hb : secpW.a₂ = 0 := rfl
  have hc : secpW.a₃ = 0 := rfl
  have hd : secpW.a₄ = 0 := rfl
  have he : secpW.a₆ = 7 := rfl
  rw [ha, hb, hc, hd, he]
  rw [show ∀ u v : ZMod P, u ^ 2 + 0 * v * u + 0 * u = u ^ 2 from fun u v => by ring]
  constructor
  · intro h
    have : ((y * y : Nat) : ZMod P) = ((x * x * x + 7 : Nat) : ZMod P) := by
      push_cast
      rw [show ((y : ZMod P)) * y = (y : ZMod P) ^ 2 from (sq _).symm, h]
      ring
    rwa [ZMod.natCast_eq_natCast_iff'] at this
  · intro h
    have h2 : ((y * y : Nat) : ZMod P) = ((x * x * x + 7 : Nat) : ZMod P) := by
      rwa [ZMod.natCast_eq_natCast_iff']
    push_cast at h2
    rw [show ((y : ZMod P)) * y = (y : ZMod P) ^ 2 from (sq _).symm] at h2
    rw [h2]
    ring

theorem nonsingular_of_onCurveN {x y : Nat} (h : onCurveN x y) :
    secpW.Nonsingular (x : ZMod P) (y : ZMod P) :=
  secpW.nonsingular_of_Δ_ne_zero ((equation_iff_onCurveN x y).mpr h) secpW_Δ_ne_zero

end Secp

namespace Secp

/-- Representation of an executable point (reduced coordinates) by a
nonsingular Mathlib point on the secp256k1 curve. Stated as a conjunction
of conditional clauses rather than a match, so that mentioning
reprPt applied to an unevaluated point never forces evaluation. -/
def reprPt (pt : Point) (Q : secpW.Point) : Prop :=
  (pt = none → Q = 0) ∧
  (∀ x y, pt = some (x, y) → x < P ∧ y < P ∧
    ∃ h : secpW.Nonsingular (x : ZMod P) (y : ZMod P),
      Q = WeierstrassCurve.Affine.Point.some h)

theorem reprPt_none {Q : secpW.Point} (h : Q = 0) : reprPt none Q := by
  refine ⟨fun _ => h, ?_⟩
  intro x y hxy
  cases hxy

theorem reprPt_none_elim {Q : secpW.Point} (h : reprPt none Q) : Q = 0 := h.1 rfl

theorem reprPt_some {x y : Nat} {Q : secpW.Point} (hx : x < P) (hy : y < P)
    (hns : secpW.Nonsingular (x : ZMod P) (y : ZMod P))
    (hQ : Q = WeierstrassCurve.Affine.Point.some hns) : reprPt (some (x, y)) Q := by
  refine ⟨fun hcon => Option.noConfusion hcon, ?_⟩
  intro a b hab
  have hpair : (x, y) = (a, b) := by injection hab
  have hxa : x = a := congrArg Prod.fst hpair
  have hyb : y = b := congrArg Prod.snd hpair
  subst hxa
  subst hyb
  exact ⟨hx, hy, hns, hQ⟩

theorem reprPt_some_elim {x y : Nat} {Q : secpW.Point} (h : reprPt (some (x, y)) Q) :
    x < P ∧ y < P ∧ ∃ hns : secpW.Nonsingular (x : ZMod P) (y : ZMod P),
      Q = WeierstrassCurve.Affine.Point.some hns := h.2 x y rfl

theorem secpW_negY (u v : ZMod P) : secpW.negY u v = -v := by
  show -v - secpW.a₁ * u - secpW.a₃ = -v
  show -v - 0 * u - 0 = -v
  ring

theorem point_some_congr {a b c d : ZMod P} (hac : a = c) (hbd : b = d)
    (h : secpW.Nonsingular a b) (hcd : secpW.Nonsingular c d) :
    (WeierstrassCurve.Affine.Point.some h : secpW.Point) =
      WeierstrassCurve.Affine.Point.some hcd := by
  subst hac
  subst hbd
  rfl

theorem secpW_slope_tangent (u v w : ZMod P) (h : v ≠ -w) :
    secpW.slope u u v w = 3 * u ^ 2 * (2 * v)⁻¹ := by
  rw [WeierstrassCurve.Affine.slope_of_Y_ne rfl (by rw [secpW_negY]; exact h)]
  rw [secpW_negY]
  rw [show secpW.a₂ = 0 from rfl, show secpW.a₁ = 0 from rfl, show secpW.a₄ = 0 from rfl]
  rw [div_eq_mul_inv, show v - -v = 2 * v from by ring]
  ring

theorem secpW_slope_chord (u1 u2 v1 v2 : ZMod P) (h : u1 ≠ u2) :
    secpW.slope u1 u2 v1 v2 = (v1 - v2) * (u1 - u2)⁻¹ := by
  rw [WeierstrassCurve.Affine.slope_of_X_ne h, div_eq_mul_inv]

theorem secpW_addX (u1 u2 L : ZMod P) : secpW.addX u1 u2 L = L ^ 2 - u1 - u2 := by
  rw [WeierstrassCurve.Affine.addX]
  rw [show secpW.a₁ = 0 from rfl, show secpW.a₂ = 0 from rfl]
  ring

theorem secpW_addY (u1 u2 v1 L : ZMod P) :
    secpW.addY u1 u2 v1 L = L * (u1 - secpW.addX u1 u2 L) - v1 := by
  rw [WeierstrassCurve.Affine.addY, WeierstrassCurve.Affine.negAddY, secpW_negY]
  ring

theorem chordX_lt (l x1 x2 : Nat) : chordX l x1 x2 < P := Nat.mod_lt _ P_pos

theorem chordY_lt (l x1 x3 y1 : Nat) : chordY l x1 x3 y1 < P := Nat.mod_lt _ P_pos

theorem cast_chordX {x1 x2 : Nat} (l : Nat) (hx1 : x1 < P) (hx2 : x2 < P) :
    ((chordX l x1 x2 : Nat) : ZMod P) = ((l : ZMod P)) ^ 2 - (x1 : ZMod P) - x2 := by
  rw [chordX, cast_modP, Nat.cast_add, Nat.cast_add, Nat.cast_mul]
  rw [Nat.cast_sub hx1.le, Nat.cast_sub hx2.le, ZMod.natCast_self]
  ring

theorem cast_chordY {x3 y1 : Nat} (l x1 : Nat) (hx3 : x3 < P) (hy1 : y1 < P) :
    ((chordY l x1 x3 y1 : Nat) : ZMod P) =
      (l : ZMod P) * ((x1 : ZMod P) - x3) - y1 := by
  rw [chordY, cast_modP, Nat.cast_add, Nat.cast_mul, cast_modP, Nat.cast_add]
  rw [Nat.cast_sub hx3.le, Nat.cast_sub hy1.le, ZMod.natCast_self]
  ring

theorem cast_tangentSlope (x1 y1 : Nat) :
    ((tangentSlope x1 y1 : Nat) : ZMod P) =
      3 * (x1 : ZMod P) ^ 2 * (2 * (y1 : ZMod P))⁻¹ := by
  rw [tangentSlope, cast_modP, Nat.cast_mul, cast_modP, fInv_cast, cast_modP]
  push_cast
  ring_nf

theorem cast_chordSlope {y2 x2 : Nat} (x1 y1 : Nat) (hy2 : y2 < P) (hx2 : x2 < P) :
    ((chordSlope x1 y1 x2 y2 : Nat) : ZMod P) =
      ((y1 : ZMod P) - y2) * ((x1 : ZMod P) - x2)⁻¹ := by
  rw [chordSlope, cast_modP, Nat.cast_mul, cast_modP, fInv_cast, cast_modP]
  rw [Nat.cast_add, Nat.cast_add, Nat.cast_sub hy2.le, Nat.cast_sub hx2.le, ZMod.natCast_self]
  ring_nf

theorem repr_add_some {x1 y1 x2 y2 l : Nat}
    {hns1 : secpW.Nonsingular (x1 : ZMod P) (y1 : ZMod P)}
    {hns2 : secpW.Nonsingular (x2 : ZMod P) (y2 : ZMod P)}
    (hx1 : x1 < P) (hy1 : y1 < P) (hx2 : x2 < P) (hy2 : y2 < P)
    (hxy : (x1 : ZMod P) = (x2 : ZMod P) → (y1 : ZMod P) ≠ secpW.negY (x2 : ZMod P) (y2 : ZMod P))
    (hcl : ((l : Nat) : ZMod P) =
      secpW.slope (x1 : ZMod P) (x2 : ZMod P) (y1 : ZMod P) (y2 : ZMod P)) :
    reprPt (some (chordX l x1 x2, chordY l x1 (chordX l x1 x2) y1))
      (WeierstrassCurve.Affine.Point.some hns1 + WeierstrassCurve.Affine.Point.some hns2) := by
  rw [WeierstrassCurve.Affine.Point.add_of_imp hxy]
  have hcx3 : ((chordX l x1 x2 : Nat) : ZMod P) =
      secpW.addX (x1 : ZMod P) (x2 : ZMod P)
        (secpW.slope (x1 : ZMod P) (x2 : ZMod P) (y1 : ZMod P) (y2 : ZMod P)) := by
    rw [cast_chordX l hx1 hx2, secpW_addX, hcl]
  have hcy3 : ((chordY l x1 (chordX l x1 x2) y1 : Nat) : ZMod P) =
      secpW.addY (x1 : ZMod P) (x2 : ZMod P) (y1 : ZMod P)
        (secpW.slope (x1 : ZMod P) (x2 : ZMod P) (y1 : ZMod P) (y2 : ZMod P)) := by
    rw [cast_chordY l x1 (chordX_lt l x1 x2) hy1, secpW_addY, hcx3, hcl]
  have hns3 : secpW.Nonsingular ((chordX l x1 x2 : Nat) : ZMod P)
      ((chordY l x1 (chordX l x1 x2) y1 : Nat) : ZMod P) := by
    rw [hcx3, hcy3]
    exact WeierstrassCurve.Affine.nonsingular_add hns1 hns2 hxy
  exact reprPt_some (chordX_lt l x1 x2) (chordY_lt l x1 (chordX l x1 x2) y1) hns3
    (point_some_congr hcx3.symm hcy3.symm _ _)

theorem repr_add {p1 p2 : Point} {Q1 Q2 : secpW.Point}
    (h1 : reprPt p1 Q1) (h2 : reprPt p2 Q2) :
    reprPt (pointAdd p1 p2) (Q1 + Q2) := by
  rcases p1 with _ | ⟨x1, y1⟩
  · rw [show Q1 = 0 from reprPt_none_elim h1, zero_add]
    rcases p2 with _ | ⟨x2, y2⟩ <;> exact h2
  rcases p2 with _ | ⟨x2, y2⟩
  · rw [show Q2 = 0 from reprPt_none_elim h2, add_zero]
    exact h1
  obtain ⟨hx1, hy1, hns1, hQ1⟩ := reprPt_some_elim h1
  obtain ⟨hx2, hy2, hns2, hQ2⟩ := reprPt_some_elim h2
  subst hQ1
  subst hQ2
  by_cases hxx : x1 = x2
  · subst hxx
    by_cases hyy : (y1 + y2) % P = 0
    · have hmod : ((y1 + y2 : Nat) : ZMod P) = 0 := by
        rw [← cast_modP, hyy, Nat.cast_zero]
      have hy12 : (y1 : ZMod P) = secpW.negY (x1 : ZMod P) (y2 : ZMod P) := by
        rw [secpW_negY]
        push_cast at hmod
        linear_combination hmod
      rw [WeierstrassCurve.Affine.Point.add_of_Y_eq rfl hy12]
      show reprPt (pointAdd (some (x1, y1)) (some (x1, y2))) 0
      simp only [pointAdd, if_pos rfl, if_pos hyy]
      exact reprPt_none rfl
    · have hyneg : (y1 : ZMod P) ≠ -(y2 : ZMod P) := by
        intro hcon
        have hz : ((y1 + y2 : Nat) : ZMod P) = 0 := by
          push_cast
          linear_combination hcon
        rw [ZMod.natCast_zmod_eq_zero_iff_dvd] at hz
        have hmodz := Nat.modEq_zero_iff_dvd.mpr hz
        exact hyy (by simpa [Nat.ModEq] using hmodz)
      have hy12 : (y1 : ZMod P) ≠ secpW.negY (x1 : ZMod P) (y2 : ZMod P) := by
        rw [secpW_negY]
        exact hyneg
      show reprPt (pointAdd (some (x1, y1)) (some (x1, y2))) _
      simp only [pointAdd, if_pos rfl, if_neg hyy]
      show reprPt (some (chordX (tangentSlope x1 y1) x1 x1,
        chordY (tangentSlope x1 y1) x1 (chordX (tangentSlope x1 y1) x1 x1) y1)) _
      refine repr_add_some hx1 hy1 hx1 hy2 (fun _ => hy12) ?_
      rw [cast_tangentSlope, secpW_slope_tangent _ _ _ hyneg]
  · have hcx : (x1 : ZMod P) ≠ (x2 : ZMod P) := fun hcon =>
      hxx (cast_inj_of_lt hx1 hx2 hcon)
    show reprPt (pointAdd (some (x1, y1)) (some (x2, y2))) _
    simp only [pointAdd, if_neg hxx]
    show reprPt (some (chordX (chordSlope x1 y1 x2 y2) x1 x2,
      chordY (chordSlope x1 y1 x2 y2) x1 (chordX (chordSlope x1 y1 x2 y2) x1 x2) y1)) _
    refine repr_add_some hx1 hy1 hx2 hy2 (fun hc => absurd hc hcx) ?_
    rw [cast_chordSlope x1 y1 hy2 hx2, secpW_slope_chord _ _ _ _ hcx]

end Secp

namespace Secp

set_option maxHeartbeats 4000000

theorem Gx_lt : Gx < P := by decide

theorem Gy_lt : Gy < P := by decide

theorem G_onCurve : onCurveN Gx Gy := by
  show Gy * Gy % P = (Gx * Gx * Gx + 7) % P
  decide

theorem nonsingular_G : secpW.Nonsingular (Gx : ZMod P) (Gy : ZMod P) :=
  nonsingular_of_onCurveN G_onCurve

/-- The generator as a point of the Mathlib curve group. -/
def Qg : secpW.Point := WeierstrassCurve.Affine.Point.some nonsingular_G

theorem reprG : reprPt G Qg := reprPt_some Gx_lt Gy_lt nonsingular_G rfl

theorem repr_mulGo : ∀ f k {base acc : Point} {B A : secpW.Point}, k ≤ f →
    reprPt base B → reprPt acc A → reprPt (pointMulGo f k base acc) (A + k • B) := by
  intro f
  induction f with
  | zero =>
      intro k base acc B A hk hB hA
      have hk0 : k = 0 := by omega
      subst hk0
      show reprPt acc (A + 0 • B)
      rwa [zero_nsmul, add_zero]
  | succ f ih =>
      intro k base acc B A hk hB hA
      by_cases hk0 : k = 0
      · subst hk0
        show reprPt acc (A + 0 • B)
        rwa [zero_nsmul, add_zero]
      · rw [pointMulGo, if_neg hk0]
        by_cases hodd : k % 2 = 1
        · rw [if_pos hodd]
          have hres := ih (k / 2) (by omega) (repr_add hB hB) (repr_add hA hB)
          have heq : A + B + (k / 2) • (B + B) = A + k • B := by
            have hkB : k • B = (k / 2 * 2) • B + B := by
              conv_lhs => rw [show k = k / 2 * 2 + 1 by omega]
              rw [add_nsmul, one_nsmul]
            rw [hkB, show B + B = 2 • B from (two_nsmul B).symm, smul_smul]
            abel
          rwa [heq] at hres
        · rw [if_neg hodd]
          have hres := ih (k / 2) (by omega) (repr_add hB hB) hA
          have heq : A + (k / 2) • (B + B) = A + k • B := by
            have hkB : k • B = (k / 2 * 2) • B := by
              conv_lhs => rw [show k = k / 2 * 2 by omega]
            rw [hkB, show B + B = 2 • B from (two_nsmul B).symm, smul_smul]
          rwa [heq] at hres

theorem repr_mul (k : Nat) {pt : Point} {Q : secpW.Point} (h : reprPt pt Q) :
    reprPt (pointMul k pt) (k • Q) := by
  have hres := repr_mulGo k k (Nat.le_refl k) h (reprPt_none rfl)
  rw [zero_add] at hres
  exact hres

set_option maxHeartbeats 64000000 in
theorem pointMul_N_G_eq : pointMul N G = none := by decide

theorem eq_zero_of_repr_none {Q : secpW.Point} (h : reprPt none Q) : Q = 0 :=
  reprPt_none_elim h

theorem repr_of_eq {pt1 pt2 : Point} {Q : secpW.Point} (h : reprPt pt1 Q)
    (he : pt1 = pt2) : reprPt pt2 Q := he ▸ h

theorem N_smul_Qg : N • Qg = 0 :=
  eq_zero_of_repr_none (repr_of_eq (repr_mul N reprG) pointMul_N_G_eq)

theorem smul_mod_N (a : Nat) : (a % N) • Qg = a • Qg := by
  have h : a • Qg = N • ((a / N) • Qg) + (a % N) • Qg := by
    rw [← mul_nsmul, ← add_nsmul, Nat.div_add_mod']
  rw [h, smul_comm, N_smul_Qg, nsmul_zero, zero_add]

theorem reprPt_inj {pt1 pt2 : Point} {Q : secpW.Point}
    (h1 : reprPt pt1 Q) (h2 : reprPt pt2 Q) : pt1 = pt2 := by
  rcases pt1 with _ | ⟨x1, y1⟩ <;> rcases pt2 with _ | ⟨x2, y2⟩
  · rfl
  · exfalso
    obtain ⟨_, _, hns, hQ⟩ := reprPt_some_elim h2
    rw [show Q = 0 from reprPt_none_elim h1] at hQ
    exact WeierstrassCurve.Affine.Point.some_ne_zero hns hQ.symm
  · exfalso
    obtain ⟨_, _, hns, hQ⟩ := reprPt_some_elim h1
    rw [show Q = 0 from reprPt_none_elim h2] at hQ
    exact WeierstrassCurve.Affine.Point.some_ne_zero hns hQ.symm
  · obtain ⟨hx1, hy1, hns1, hQ1⟩ := reprPt_some_elim h1
    obtain ⟨hx2, hy2, hns2, hQ2⟩ := reprPt_some_elim h2
    rw [hQ1] at hQ2
    injection hQ2 with hx hy
    rw [cast_inj_of_lt hx1 hx2 hx, cast_inj_of_lt hy1 hy2 hy]

end Secp

namespace Secp

theorem powMod_lt (b e m : Nat) (hm : 0 < m) : powMod b e m < m := by
  rw [powMod_eq _ _ _ hm]
  exact Nat.mod_lt _ hm

theorem cast_modN (a : Nat) : ((a % N : Nat) : ZMod N) = (a : ZMod N) :=
  ZMod.natCast_mod a N

theorem cast_inj_of_lt_N {a b : Nat} (ha : a < N) (hb : b < N)
    (h : (a : ZMod N) = (b : ZMod N)) : a = b := by
  have hv := congrArg ZMod.val h
  rwa [ZMod.val_cast_of_lt ha, ZMod.val_cast_of_lt hb] at hv

/-- Characterization of a successful SecretKey::parse. -/
theorem secretKey_parse_ok {v : Nat} {k : SecretKey}
    (h : SecretKey.parse v = Except.ok k) : k = ⟨v⟩ ∧ 0 < v ∧ v < N := by
  rw [SecretKey.parse] at h
  split_ifs at h with hc
  · obtain ⟨hov, hz⟩ := hc
    have hvN : v < N := by omega
    have hmod : v % N = v := Nat.mod_eq_of_lt hvN
    injection h with h1
    refine ⟨h1.symm ▸ ?_, ?_, hvN⟩
    · rw [hmod]
    · rw [hmod] at hz
      omega

/-- C4: SecretKey::parse accepts a 32-byte array exactly when its value is
nonzero and strictly below the group order n, returning that value as the
key scalar; in every other case it fails with InvalidSecretKey. -/
theorem C4_secretKey_parse_spec (v : Nat) (hv : v < B256) :
    (0 < v ∧ v < N → SecretKey.parse v = Except.ok ⟨v⟩) ∧
    (¬ (0 < v ∧ v < N) → SecretKey.parse v = Except.error Error.InvalidSecretKey) := by
  constructor
  · intro ⟨h0, hN⟩
    rw [SecretKey.parse]
    rw [if_pos]
    · rw [Nat.mod_eq_of_lt hN]
    · constructor
      · omega
      · rw [Nat.mod_eq_of_lt hN]
        omega
  · intro hbad
    rw [SecretKey.parse]
    rw [if_neg]
    intro ⟨hov, hz⟩
    have hvN : v < N := by omega
    rw [Nat.mod_eq_of_lt hvN] at hz
    exact hbad ⟨by omega, hvN⟩

/-- Witness for C4 at the concrete input 5. -/
theorem C4_witness : SecretKey.parse 5 = Except.ok ⟨5⟩ :=
  (C4_secretKey_parse_spec 5 (by norm_num [B256])).1 (by constructor <;> norm_num [N])

/-- C9: Message::hash digests the input and delegates validation to
SecretKey::parse on the digest: it fails with exactly the errors of
SecretKey::parse and otherwise returns the digest as the message scalar. -/
theorem C9_message_hash_spec (b : List Nat) :
    (∀ e, Message.hash b = Except.error e ↔ SecretKey.parse (digest b) = Except.error e) ∧
    (0 < digest b ∧ digest b < N → Message.hash b = Except.ok ⟨digest b⟩) := by
  constructor
  · intro e
    rw [Message.hash]
    cases hp : SecretKey.parse (digest b) with
    | ok s => simp
    | error e2 => simp
  · intro hcond
    rw [Message.hash]
    have hok : SecretKey.parse (digest b) = Except.ok ⟨digest b⟩ := by
      rw [SecretKey.parse, if_pos]
      · rw [Nat.mod_eq_of_lt hcond.2]
      · constructor
        · omega
        · rw [Nat.mod_eq_of_lt hcond.2]
          omega
    rw [hok]

/-- Witness for C9 at the concrete input [1]. -/
theorem C9_witness : Message.hash [1] = Except.ok ⟨digest [1]⟩ :=
  (C9_message_hash_spec [1]).2 (by constructor <;> decide)

/-- C1: the ECDSA-style signer is deterministic — the result of
Message::sign is a function of the serialized bytes of the message and the
secret key alone (the signer takes no randomness: the nonce comes from the
deterministic generator seeded by exactly these bytes), so two runs on the
same pair are bit-identical. -/
theorem C1_sign_deterministic (m1 m2 : Message) (k1 k2 : SecretKey)
    (hm : Message.serialize m1 = Message.serialize m2)
    (hk : SecretKey.serialize k1 = SecretKey.serialize k2) :
    Message.sign m1 k1 = Message.sign m2 k2 := by
  have hmeq : m1 = m2 := by
    cases m1
    cases m2
    simpa [Message.serialize] using hm
  have hkeq : k1 = k2 := by
    cases k1
    cases k2
    simpa [SecretKey.serialize] using hk
  rw [hmeq, hkeq]

/-- Witness for C1 at concrete inputs. -/
theorem C1_witness : Message.sign ⟨1⟩ ⟨2⟩ = Message.sign ⟨1⟩ ⟨2⟩ :=
  C1_sign_deterministic ⟨1⟩ ⟨1⟩ ⟨2⟩ ⟨2⟩ rfl rfl

theorem findNonceGo_spec (sk m : Nat) :
    ∀ f i v, findNonceGo sk m f i = some v →
      ∃ j, i ≤ j ∧ j < i + f ∧ v = drbgGenerate sk m j ∧ 0 < v ∧ v < N ∧
        ∀ i2, i ≤ i2 → i2 < j →
          (N ≤ drbgGenerate sk m i2 ∨ drbgGenerate sk m i2 % N = 0) := by
  intro f
  induction f with
  | zero =>
      intro i v h
      cases h
  | succ f ih =>
      intro i v h
      rw [findNonceGo] at h
      split_ifs at h with hc
      · obtain ⟨hov, hz⟩ := hc
        have hlt : drbgGenerate sk m i < N := by omega
        have hmod : drbgGenerate sk m i % N = drbgGenerate sk m i := Nat.mod_eq_of_lt hlt
        injection h with h1
        refine ⟨i, Nat.le_refl i, by omega, ?_, ?_, ?_, ?_⟩
        · rw [← h1, hmod]
        · rw [← h1, hmod]
          rw [hmod] at hz
          omega
        · rw [← h1, hmod]
          exact hlt
        · intro i2 hle hlt2
          omega
      · obtain ⟨j, hj1, hj2, hj3, hj4, hj5, hj6⟩ := ih (i + 1) v h
        refine ⟨j, by omega, by omega, hj3, hj4, hj5, ?_⟩
        intro i2 hle hlt2
        by_cases hi2 : i2 = i
        · subst hi2
          push_neg at hc
          by_cases hov : N ≤ drbgGenerate sk m i2
          · exact Or.inl hov
          · exact Or.inr (hc (by omega))
        · exact hj6 i2 (by omega) hlt2

/-- C5: the nonce of Message::sign is drawn from the deterministic bit
generator seeded with the secret-key bytes and message bytes; the accepted
nonce is the first draw that is nonzero and strictly below the group
order, every earlier draw having been rejected for overflow or zeroness,
and the signature is then produced by the raw signing step on that
nonce. -/
theorem C5_sign_nonce_spec (msg : Message) (sk : SecretKey) (v : Nat)
    (h : findNonceGo sk.s msg.m nonceFuel 0 = some v) :
    (0 < v ∧ v < N ∧
      ∃ j, j < nonceFuel ∧ v = drbgGenerate sk.s msg.m j ∧
        ∀ i2, i2 < j →
          (N ≤ drbgGenerate sk.s msg.m i2 ∨ drbgGenerate sk.s msg.m i2 % N = 0)) ∧
    Message.sign msg sk = (match sign_raw sk.s msg.m v with
      | Except.ok (sigr, sigs, recid) => Except.ok (⟨sigr, sigs⟩, ⟨recid⟩)
      | Except.error e => Except.error e) := by
  obtain ⟨j, hj1, hj2, hj3, hj4, hj5, hj6⟩ := findNonceGo_spec sk.s msg.m nonceFuel 0 v h
  constructor
  · exact ⟨hj4, hj5, j, by omega, hj3, fun i2 hi2 => hj6 i2 (by omega) hi2⟩
  · rw [Message.sign, h]

end Secp

namespace Secp

/-- Witness for C5: for secret key 1 and message 2, the accepted nonce is
the very first draw of the deterministic generator. -/
theorem C5_witness :
    0 < 21026783823086804568236851735859440133326299409 ∧
    21026783823086804568236851735859440133326299409 < N ∧
    ∃ j, j < nonceFuel ∧
      21026783823086804568236851735859440133326299409 = drbgGenerate 1 2 j ∧
      ∀ i2, i2 < j → (N ≤ drbgGenerate 1 2 i2 ∨ drbgGenerate 1 2 i2 % N = 0) :=
  (C5_sign_nonce_spec ⟨2⟩ ⟨1⟩ 21026783823086804568236851735859440133326299409 (by decide)).1

/-- C6: PublicKey::parse on a 65-byte array succeeds exactly when the tag
byte is 4, 6 or 7, both coordinates read as field elements without
overflow, the point satisfies the curve equation (and is not infinity,
which the coordinate form cannot encode), and for the hybrid tags the
claimed y-parity matches; every violation - including tag byte 5 - fails
with InvalidPublicKey (the embedding is a total function, so no panic is
possible). -/
theorem C6_publicKey_parse_spec (b : Bytes65) (htag : b.tag < 256)
    (hx : b.x < B256) (hy : b.y < B256) :
    ((b.tag = 4 ∨ b.tag = 6 ∨ b.tag = 7) ∧ b.x < P ∧ b.y < P ∧
        b.y * b.y % P = (b.x * b.x * b.x + 7) % P ∧
        (b.tag = 6 → b.y % 2 = 0) ∧ (b.tag = 7 → b.y % 2 = 1) →
      PublicKey.parse b = Except.ok ⟨some (b.x, b.y)⟩) ∧
    (¬ ((b.tag = 4 ∨ b.tag = 6 ∨ b.tag = 7) ∧ b.x < P ∧ b.y < P ∧
        b.y * b.y % P = (b.x * b.x * b.x + 7) % P ∧
        (b.tag = 6 → b.y % 2 = 0) ∧ (b.tag = 7 → b.y % 2 = 1)) →
      PublicKey.parse b = Except.error Error.InvalidPublicKey) := by
  constructor
  · intro hcond
    obtain ⟨ht, hxp, hyp, hcurve, h6, h7⟩ := hcond
    rw [PublicKey.parse]
    rw [if_neg (not_not_intro ht)]
    rw [if_neg (show ¬ P ≤ b.x by omega)]
    rw [if_neg (show ¬ P ≤ b.y by omega)]
    rw [if_neg (show ¬ ((b.tag = 6 ∨ b.tag = 7) ∧ ¬ (b.y % 2 = 1 ↔ b.tag = 7)) from ?_)]
    · rw [if_neg (show ¬ ((some (b.x, b.y) : Point) = none) by simp)]
      rw [if_pos hcurve]
    · rintro ⟨h67, hno⟩
      apply hno
      rcases h67 with h6t | h7t
      · exact ⟨fun hodd => by have := h6 h6t; omega, fun h7t2 => by omega⟩
      · exact ⟨fun _ => h7t, fun _ => h7 h7t⟩
  · intro hbad
    rw [PublicKey.parse]
    by_cases hc1 : b.tag = 4 ∨ b.tag = 6 ∨ b.tag = 7
    · rw [if_neg (not_not_intro hc1)]
      by_cases hc2 : P ≤ b.x
      · rw [if_pos hc2]
      · rw [if_neg hc2]
        by_cases hc3 : P ≤ b.y
        · rw [if_pos hc3]
        · rw [if_neg hc3]
          by_cases hc4 : (b.tag = 6 ∨ b.tag = 7) ∧ ¬ (b.y % 2 = 1 ↔ b.tag = 7)
          · rw [if_pos hc4]
          · rw [if_neg hc4]
            rw [if_neg (show ¬ ((some (b.x, b.y) : Point) = none) by simp)]
            by_cases hc6 : b.y * b.y % P = (b.x * b.x * b.x + 7) % P
            · exfalso
              apply hbad
              refine ⟨hc1, by omega, by omega, hc6, ?_, ?_⟩
              · intro h6t
                by_contra hodd
                have hodd1 : b.y % 2 = 1 := by omega
                exact hc4 ⟨Or.inl h6t, fun hiff => by have := hiff.mp hodd1; omega⟩
              · intro h7t
                by_contra heven
                have heven0 : b.y % 2 = 0 := by omega
                exact hc4 ⟨Or.inr h7t, fun hiff => by have := hiff.mpr h7t; omega⟩
            · rw [if_neg hc6]
    · rw [if_pos hc1]

/-- Witness for C6: the generator point in uncompressed form parses. -/
theorem C6_witness :
    PublicKey.parse ⟨4, Gx, Gy⟩ = Except.ok ⟨some (Gx, Gy)⟩ :=
  (C6_publicKey_parse_spec ⟨4, Gx, Gy⟩ (by norm_num) (by decide) (by decide)).1 (by decide)

end Secp

namespace Secp

/-- Counterexample to C10: the valid secret keys 1 and n-1 sum (through
the key-level Add, which never revalidates) to the zero scalar, violating
the SecretKey invariant. -/
theorem C10_counterexample :
    SecretKey.parse 1 = Except.ok ⟨1⟩ ∧
    SecretKey.parse (N - 1) = Except.ok ⟨N - 1⟩ ∧
    (SecretKey.add ⟨1⟩ ⟨N - 1⟩).s = 0 := by
  refine ⟨?_, ?_, ?_⟩ <;> decide

/-- C10 amended: for valid secret keys a and b, scalar multiplication and
negation yield valid (nonzero, below-n) secret keys; addition always
yields a scalar below n, but yields the zero scalar exactly when
a + b = n. -/
theorem C10_amended (a b : SecretKey)
    (ha : 0 < a.s ∧ a.s < N) (hb : 0 < b.s ∧ b.s < N) :
    (0 < (SecretKey.mul a b).s ∧ (SecretKey.mul a b).s < N) ∧
    (0 < (SecretKey.neg a).s ∧ (SecretKey.neg a).s < N) ∧
    (SecretKey.add a b).s < N ∧
    ((SecretKey.add a b).s = 0 ↔ a.s + b.s = N) := by
  obtain ⟨ha0, haN⟩ := ha
  obtain ⟨hb0, hbN⟩ := hb
  have hNpos : 0 < N := N_pos
  refine ⟨⟨?_, ?_⟩, ⟨?_, ?_⟩, ?_, ?_, ?_⟩
  · show 0 < a.s * b.s % N
    rcases Nat.eq_zero_or_pos (a.s * b.s % N) with hz | hp
    · exfalso
      have hdvd : N ∣ a.s * b.s := Nat.modEq_zero_iff_dvd.mp (by simpa [Nat.ModEq] using hz)
      rcases N_prime.dvd_mul.mp hdvd with h | h
      · have := Nat.le_of_dvd ha0 h
        omega
      · have := Nat.le_of_dvd hb0 h
        omega
    · exact hp
  · exact Nat.mod_lt _ hNpos
  · show 0 < (N - a.s) % N
    rw [Nat.mod_eq_of_lt (by omega)]
    omega
  · exact Nat.mod_lt _ hNpos
  · exact Nat.mod_lt _ hNpos
  · show (a.s + b.s) % N = 0 → a.s + b.s = N
    intro h
    have hdvd : N ∣ a.s + b.s := Nat.modEq_zero_iff_dvd.mp (by simpa [Nat.ModEq] using h)
    rcases hdvd with ⟨c, hc⟩
    have hc1 : c = 1 := by
      rcases Nat.lt_or_ge c 1 with hlt | hge
      · exfalso
        have hc0 : c = 0 := by omega
        rw [hc0, Nat.mul_zero] at hc
        omega
      · rcases Nat.lt_or_ge c 2 with hlt2 | hge2
        · omega
        · exfalso
          have hmul : N * 2 ≤ N * c := Nat.mul_le_mul_left N hge2
          omega
    rw [hc1, Nat.mul_one] at hc
    exact hc
  · show a.s + b.s = N → (a.s + b.s) % N = 0
    intro h
    rw [h, Nat.mod_self]

/-- Witness for the amended C10 at a = b = 1. -/
theorem C10_amended_witness :
    (0 < (SecretKey.mul ⟨1⟩ ⟨1⟩).s ∧ (SecretKey.mul ⟨1⟩ ⟨1⟩).s < N) ∧
    (0 < (SecretKey.neg ⟨1⟩).s ∧ (SecretKey.neg ⟨1⟩).s < N) ∧
    (SecretKey.add ⟨1⟩ ⟨1⟩).s < N ∧
    ((SecretKey.add ⟨1⟩ ⟨1⟩).s = 0 ↔ (1 : Nat) + 1 = N) :=
  C10_amended ⟨1⟩ ⟨1⟩ (by refine ⟨?_, ?_⟩ <;> decide) (by refine ⟨?_, ?_⟩ <;> decide)

theorem scalar_recover {ev kv : Nat} (he0 : 0 < ev) (heN : ev < N) (hkN : kv < N) :
    ev * kv % N * powMod ev (N - 2) N % N = kv := by
  have h2N : 2 < N := by norm_num [N]
  apply cast_inj_of_lt_N (Nat.mod_lt _ (by omega)) hkN
  rw [cast_modN, Nat.cast_mul, cast_modN, Nat.cast_mul]
  rw [powMod_eq _ _ _ (by omega), cast_modN, Nat.cast_pow]
  rw [pow_sub_two_eq_inv h2N]
  have hene : ((ev : ZMod N)) ≠ 0 := by
    intro hcon
    rw [ZMod.natCast_zmod_eq_zero_iff_dvd] at hcon
    have := Nat.le_of_dvd he0 hcon
    omega
  calc (ev : ZMod N) * kv * (ev : ZMod N)⁻¹
      = (kv : ZMod N) * ((ev : ZMod N) * (ev : ZMod N)⁻¹) := by ring
    _ = kv := by rw [mul_inv_cancel₀ hene, mul_one]

/-- C3: the insecure no-nonce Schnorr signature s = e·k with public
challenge e allows exact key recovery: s·e⁻¹ is the original secret
key. -/
theorem C3_insecure_schnorr_recovery (k : SecretKey) (msg : Message)
    (e s : SecretKey) (hk0 : 0 < k.s) (hkN : k.s < N)
    (hsig : insecureSchnorrSign k msg = Except.ok (e, s)) :
    SecretKey.mul s (SecretKey.inv e) = k := by
  rw [insecureSchnorrSign, challengeScalar] at hsig
  cases hch : SecretKey.parse
      (digest [encodePoint (PublicKey.from_secret_key k), msg.m]) with
  | error err =>
      rw [hch] at hsig
      cases hsig
  | ok e0 =>
      rw [hch] at hsig
      injection hsig with hpair
      have he : e0 = e := congrArg Prod.fst hpair
      have hs : SecretKey.mul e0 k = s := congrArg Prod.snd hpair
      subst he
      obtain ⟨heq, he0pos, he0N⟩ := secretKey_parse_ok hch
      rw [← hs]
      show (⟨e0.s * k.s % N * powMod e0.s (N - 2) N % N⟩ : SecretKey) = k
      have hev : 0 < e0.s ∧ e0.s < N := by
        rw [heq]
        exact ⟨he0pos, he0N⟩
      have hres := scalar_recover hev.1 hev.2 hkN
      cases k with
  | mk kv =>
      exact congrArg SecretKey.mk hres

/-- Witness for C3: with secret key 1 and message scalar 0 the insecure
signature allows recovering the key. -/
theorem C3_witness :
    SecretKey.mul
      ⟨30549504581894592910353094962739374080134805719345035583382994401779582959043⟩
      (SecretKey.inv
        ⟨30549504581894592910353094962739374080134805719345035583382994401779582959043⟩) =
      ⟨1⟩ :=
  C3_insecure_schnorr_recovery ⟨1⟩ ⟨0⟩
    ⟨30549504581894592910353094962739374080134805719345035583382994401779582959043⟩
    ⟨30549504581894592910353094962739374080134805719345035583382994401779582959043⟩
    (by decide) (by decide) (by decide)

end Secp

namespace Secp

/-- No field element cubes to -7: hence no curve point has y = 0, which
makes the parity adjustment of set_xo_var always effective. Proved by the
cubic-residue character of -7 mod p. -/
theorem curveRhs_ne_zero (x : Nat) : (x * x * x + 7) % P ≠ 0 := by
  intro h
  have hdvd : P ∣ x * x * x + 7 := Nat.modEq_zero_iff_dvd.mp (by simpa [Nat.ModEq] using h)
  have hcast : ((x * x * x + 7 : Nat) : ZMod P) = 0 := by
    rw [ZMod.natCast_zmod_eq_zero_iff_dvd]
    exact hdvd
  push_cast at hcast
  have hx0 : (x : ZMod P) ≠ 0 := by
    intro h0
    rw [h0] at hcast
    have h7 : ((7 : Nat) : ZMod P) = 0 := by
      push_cast
      linear_combination hcast
    rw [ZMod.natCast_zmod_eq_zero_iff_dvd] at h7
    have hle := Nat.le_of_dvd (by norm_num) h7
    have := P_big
    omega
  have hcube : ((x : ZMod P)) ^ 3 = -7 := by linear_combination hcast
  have hfer : ((x : ZMod P)) ^ (P - 1) = 1 := ZMod.pow_card_sub_one_eq_one hx0
  have h31 : 3 * ((P - 1) / 3) = P - 1 := by norm_num [P]
  have h3 : ((-7 : ZMod P)) ^ ((P - 1) / 3) = 1 := by
    rw [← hcube, ← pow_mul, h31]
    exact hfer
  have hne : ((-7 : ZMod P)) ^ ((P - 1) / 3) ≠ 1 := by
    have hrw : ((-7 : ZMod P)) = ((P - 7 : Nat) : ZMod P) := by
      rw [cast_natSub 7 (by norm_num [P])]
      norm_num
    rw [hrw]
    exact castPow_ne_one_of_powMod _ _ _ (by norm_num [P]) (by decide)
  exact hne h3

/-- The serialized tag of the parity-adjusted y equals the requested
tag. -/
theorem xoY_parity {x tag : Nat} (htag : tag = 2 ∨ tag = 3)
    (hvalid : sqrtCand x * sqrtCand x % P = (x * x * x + 7) % P) :
    (if xoY x tag % 2 = 1 then 3 else 2) = tag := by
  have hrhs0 : (x * x * x + 7) % P ≠ 0 := curveRhs_ne_zero x
  have hy0P : sqrtCand x < P := powMod_lt _ _ _ P_pos
  have hy00 : sqrtCand x ≠ 0 := by
    intro h0
    rw [h0] at hvalid
    simp at hvalid
    omega
  have hPodd : P % 2 = 1 := by norm_num [P]
  rw [xoY]
  by_cases hcond : (sqrtCand x % 2 = 1) = (tag = 3)
  · rw [if_pos hcond]
    rw [eq_iff_iff] at hcond
    rcases htag with h2 | h3
    · have hne : ¬ (sqrtCand x % 2 = 1) := fun ho => by have := hcond.mp ho; omega
      rw [if_neg hne, h2]
    · have hodd : sqrtCand x % 2 = 1 := hcond.mpr h3
      rw [if_pos hodd, h3]
  · rw [if_neg hcond]
    rw [eq_iff_iff] at hcond
    have hsub : (P - sqrtCand x) % P = P - sqrtCand x := Nat.mod_eq_of_lt (by omega)
    rw [hsub]
    rcases htag with h2 | h3
    · have hodd : sqrtCand x % 2 = 1 := by
        by_contra he
        exact hcond ⟨fun ho => absurd ho he, fun h3t => by omega⟩
      have heven2 : (P - sqrtCand x) % 2 = 0 := by omega
      rw [if_neg (by omega), h2]
    · have heven : sqrtCand x % 2 = 0 := by
        by_contra he
        have hodd : sqrtCand x % 2 = 1 := by omega
        exact hcond ⟨fun _ => h3, fun _ => hodd⟩
      have hodd2 : (P - sqrtCand x) % 2 = 1 := by omega
      rw [if_pos hodd2, h3]

/-- C7 amended: parse-then-serialize is the identity on accepted secret
keys and on accepted compressed public keys; for 65-byte arrays the
coordinates round-trip but the serialized tag byte is always 4, so the
identity holds exactly for tag-4 (uncompressed) inputs and fails for
accepted hybrid (6/7) inputs. -/
theorem C7_roundtrip_amended :
    (∀ v k, SecretKey.parse v = Except.ok k → SecretKey.serialize k = v) ∧
    (∀ b k, PublicKey.parse b = Except.ok k →
      PublicKey.serialize k = ⟨4, b.x, b.y⟩) ∧
    (∀ b k, PublicKey.parse_compressed b = Except.ok k →
      PublicKey.serialize_compressed k = b) := by
  refine ⟨?_, ?_, ?_⟩
  · intro v k h
    obtain ⟨hk, h0, hN⟩ := secretKey_parse_ok h
    rw [hk, SecretKey.serialize]
  · intro b k h
    rw [PublicKey.parse] at h
    split_ifs at h
    injection h with hk
    rw [← hk]
    rfl
  · intro b k h
    rw [PublicKey.parse_compressed] at h
    generalize hgy : xoY b.x b.tag = yv at h
    generalize hgs : sqrtCand b.x = y0 at h
    by_cases hc1 : b.tag = 2 ∨ b.tag = 3
    · rw [if_neg (not_not_intro hc1)] at h
      by_cases hc2 : P ≤ b.x
      · rw [if_pos hc2] at h
        exact Except.noConfusion h
      · rw [if_neg hc2] at h
        by_cases hc3 : y0 * y0 % P = (b.x * b.x * b.x + 7) % P
        · rw [if_neg (not_not_intro hc3), if_neg (by simp)] at h
          by_cases hc5 : yv * yv % P = (b.x * b.x * b.x + 7) % P
          · rw [if_pos hc5] at h
            have hk := Except.ok.inj h
            rw [← hk]
            show (⟨if yv % 2 = 1 then 3 else 2, b.x⟩ : Bytes33) = b
            have hx3 : sqrtCand b.x * sqrtCand b.x % P = (b.x * b.x * b.x + 7) % P := by
              rw [hgs]
              exact hc3
            have hpar := xoY_parity hc1 hx3
            rw [hgy] at hpar
            rw [hpar]
          · rw [if_neg hc5] at h
            exact Except.noConfusion h
        · rw [if_pos (by exact fun hcc => hc3 hcc)] at h
          exact Except.noConfusion h
    · rw [if_pos hc1] at h
      exact Except.noConfusion h

/-- Counterexample to C7: the generator point encoded with the hybrid-even
tag 6 is accepted by PublicKey::parse, but serialize always writes tag 4,
so the original 65 bytes are not returned. -/
theorem C7_counterexample :
    PublicKey.parse ⟨6, Gx, Gy⟩ = Except.ok ⟨some (Gx, Gy)⟩ ∧
    PublicKey.serialize ⟨some (Gx, Gy)⟩ ≠ ⟨6, Gx, Gy⟩ := by
  constructor
  · decide
  · decide

/-- Witness for the amended C7 at concrete accepted inputs. -/
theorem C7_witness :
    SecretKey.serialize ⟨5⟩ = 5 ∧
    PublicKey.serialize ⟨some (Gx, Gy)⟩ = ⟨4, Gx, Gy⟩ ∧
    PublicKey.serialize_compressed ⟨some (Gx, Gy)⟩ = ⟨2, Gx⟩ :=
  ⟨C7_roundtrip_amended.1 5 ⟨5⟩ (by decide),
   C7_roundtrip_amended.2.1 ⟨4, Gx, Gy⟩ ⟨some (Gx, Gy)⟩ (by decide),
   C7_roundtrip_amended.2.2 ⟨2, Gx⟩ ⟨some (Gx, Gy)⟩ (by decide)⟩

end Secp

namespace Secp

/-- A public key holding a finite, reduced, on-curve point. -/
def validPK (pk : PublicKey) : Prop :=
  ∃ x y, pk.pt = some (x, y) ∧ x < P ∧ y < P ∧ onCurveN x y

/-- A public key holding either the point at infinity or a finite,
reduced, on-curve point. -/
def validOrInfPK (pk : PublicKey) : Prop := pk.pt = none ∨ validPK pk

theorem repr_exists_of_validOrInf {pk : PublicKey} (h : validOrInfPK pk) :
    ∃ Q, reprPt pk.pt Q := by
  rcases h with hnone | ⟨x, y, hpt, hx, hy, hcur⟩
  · rw [hnone]
    exact ⟨0, reprPt_none rfl⟩
  · rw [hpt]
    exact ⟨_, reprPt_some hx hy (nonsingular_of_onCurveN hcur) rfl⟩

theorem validOrInf_of_repr {pt : Point} {Q : secpW.Point} (h : reprPt pt Q) :
    pt = none ∨ ∃ x y, pt = some (x, y) ∧ x < P ∧ y < P ∧ onCurveN x y := by
  rcases pt with _ | ⟨x, y⟩
  · exact Or.inl rfl
  · right
    obtain ⟨hx, hy, hns, _⟩ := reprPt_some_elim h
    exact ⟨x, y, rfl, hx, hy, (equation_iff_onCurveN x y).mp hns.1⟩

theorem smul_Qg_ne_zero {k : Nat} (h0 : 0 < k) (hk : k < N) : k • Qg ≠ 0 := by
  intro hcon
  have hordN : addOrderOf Qg ∣ N := addOrderOf_dvd_of_nsmul_eq_zero N_smul_Qg
  have hordk : addOrderOf Qg ∣ k := addOrderOf_dvd_of_nsmul_eq_zero hcon
  rcases Nat.Prime.eq_one_or_self_of_dvd N_prime _ hordN with h1 | hN
  · have hQ0 : Qg = 0 := AddMonoid.addOrderOf_eq_one_iff.mp h1
    exact WeierstrassCurve.Affine.Point.some_ne_zero nonsingular_G hQ0
  · rw [hN] at hordk
    have := Nat.le_of_dvd h0 hordk
    omega

theorem from_secret_key_valid {k : SecretKey} (h0 : 0 < k.s) (hN : k.s < N) :
    validPK (PublicKey.from_secret_key k) := by
  have hrep : reprPt (pointMul k.s G) (k.s • Qg) := repr_mul _ reprG
  rcases validOrInf_of_repr hrep with hnone | ⟨x, y, heq, hx, hy, hcur⟩
  · exfalso
    exact smul_Qg_ne_zero h0 hN (reprPt_none_elim (repr_of_eq hrep hnone))
  · exact ⟨x, y, heq, hx, hy, hcur⟩

theorem publicKey_parse_ok_shape {b : Bytes65} {pk : PublicKey}
    (h : PublicKey.parse b = Except.ok pk) :
    pk = ⟨some (b.x, b.y)⟩ ∧ b.x < P ∧ b.y < P ∧ onCurveN b.x b.y := by
  rw [PublicKey.parse] at h
  by_cases hc1 : b.tag = 4 ∨ b.tag = 6 ∨ b.tag = 7
  · rw [if_neg (not_not_intro hc1)] at h
    by_cases hc2 : P ≤ b.x
    · rw [if_pos hc2] at h
      exact Except.noConfusion h
    · rw [if_neg hc2] at h
      by_cases hc3 : P ≤ b.y
      · rw [if_pos hc3] at h
        exact Except.noConfusion h
      · rw [if_neg hc3] at h
        by_cases hc4 : (b.tag = 6 ∨ b.tag = 7) ∧ ¬ (b.y % 2 = 1 ↔ b.tag = 7)
        · rw [if_pos hc4] at h
          exact Except.noConfusion h
        · rw [if_neg hc4, if_neg (by simp)] at h
          by_cases hc6 : b.y * b.y % P = (b.x * b.x * b.x + 7) % P
          · rw [if_pos hc6] at h
            exact ⟨(Except.ok.inj h).symm, by omega, by omega, hc6⟩
          · rw [if_neg hc6] at h
            exact Except.noConfusion h
  · rw [if_pos hc1] at h
    exact Except.noConfusion h

theorem sqrtCand_lt (x : Nat) : sqrtCand x < P := powMod_lt _ _ _ P_pos

theorem xoY_lt (x t : Nat) : xoY x t < P := by
  rw [xoY]
  by_cases hc : (sqrtCand x % 2 = 1) = (t = 3)
  · rw [if_pos hc]
    exact sqrtCand_lt x
  · rw [if_neg hc]
    exact Nat.mod_lt _ P_pos

theorem publicKey_parse_compressed_ok_shape {b : Bytes33} {pk : PublicKey}
    (h : PublicKey.parse_compressed b = Except.ok pk) :
    ∃ y, pk = ⟨some (b.x, y)⟩ ∧ b.x < P ∧ y < P ∧ onCurveN b.x y := by
  rw [PublicKey.parse_compressed] at h
  have hyvP : xoY b.x b.tag < P := xoY_lt b.x b.tag
  generalize hgy : xoY b.x b.tag = yv at h hyvP
  generalize hgs : sqrtCand b.x = y0 at h
  by_cases hc1 : b.tag = 2 ∨ b.tag = 3
  · rw [if_neg (not_not_intro hc1)] at h
    by_cases hc2 : P ≤ b.x
    · rw [if_pos hc2] at h
      exact Except.noConfusion h
    · rw [if_neg hc2] at h
      by_cases hc3 : y0 * y0 % P = (b.x * b.x * b.x + 7) % P
      · rw [if_neg (not_not_intro hc3), if_neg (by simp)] at h
        by_cases hc5 : yv * yv % P = (b.x * b.x * b.x + 7) % P
        · rw [if_pos hc5] at h
          exact ⟨yv, (Except.ok.inj h).symm, by omega, hyvP, hc5⟩
        · rw [if_neg hc5] at h
          exact Except.noConfusion h
      · rw [if_pos (by exact fun hcc => hc3 hcc)] at h
        exact Except.noConfusion h
  · rw [if_pos hc1] at h
    exact Except.noConfusion h

/-- Counterexample to C8: key-level point addition of a parsed point and
its parsed negation wraps the point at infinity in a PublicKey, so
infinity is representable at the PublicKey type boundary. -/
theorem C8_counterexample :
    PublicKey.parse ⟨4, Gx, Gy⟩ = Except.ok ⟨some (Gx, Gy)⟩ ∧
    PublicKey.parse ⟨4, Gx, P - Gy⟩ = Except.ok ⟨some (Gx, P - Gy)⟩ ∧
    PublicKey.add ⟨some (Gx, Gy)⟩ ⟨some (Gx, P - Gy)⟩ = ⟨none⟩ := by
  refine ⟨?_, ?_, ?_⟩ <;> decide

/-- C8 amended: parse, parse_compressed and from_secret_key (on a valid
secret key) always yield a finite, reduced, on-curve point; key-level
addition and scalar multiplication yield an on-curve-or-infinity point,
and addition does reach infinity when the summands are a point and its
negation. -/
theorem C8_amended :
    (∀ b pk, PublicKey.parse b = Except.ok pk → validPK pk) ∧
    (∀ b pk, PublicKey.parse_compressed b = Except.ok pk → validPK pk) ∧
    (∀ k : SecretKey, 0 < k.s → k.s < N → validPK (PublicKey.from_secret_key k)) ∧
    (∀ a b : PublicKey, validOrInfPK a → validOrInfPK b →
      validOrInfPK (PublicKey.add a b)) ∧
    (∀ (k : SecretKey) (a : PublicKey), validOrInfPK a →
      validOrInfPK (SecretKey.mulPubkey k a)) := by
  refine ⟨?_, ?_, ?_, ?_, ?_⟩
  · intro b pk h
    obtain ⟨hpk, hx, hy, hcur⟩ := publicKey_parse_ok_shape h
    exact ⟨b.x, b.y, by rw [hpk], hx, hy, hcur⟩
  · intro b pk h
    obtain ⟨y, hpk, hx, hyP, hcur⟩ := publicKey_parse_compressed_ok_shape h
    exact ⟨b.x, y, by rw [hpk], hx, hyP, hcur⟩
  · intro k h0 hN
    exact from_secret_key_valid h0 hN
  · intro a b ha hb
    obtain ⟨Qa, hQa⟩ := repr_exists_of_validOrInf ha
    obtain ⟨Qb, hQb⟩ := repr_exists_of_validOrInf hb
    have hsum := repr_add hQa hQb
    rcases validOrInf_of_repr hsum with hnone | ⟨x, y, heq, hx, hy, hcur⟩
    · exact Or.inl hnone
    · exact Or.inr ⟨x, y, heq, hx, hy, hcur⟩
  · intro k a ha
    obtain ⟨Qa, hQa⟩ := repr_exists_of_validOrInf ha
    have hmul := repr_mul k.s hQa
    rcases validOrInf_of_repr hmul with hnone | ⟨x, y, heq, hx, hy, hcur⟩
    · exact Or.inl hnone
    · exact Or.inr ⟨x, y, heq, hx, hy, hcur⟩

/-- Witness for the amended C8 at concrete inputs. -/
theorem C8_amended_witness :
    validPK ⟨some (Gx, Gy)⟩ ∧
    validPK (PublicKey.from_secret_key ⟨1⟩) ∧
    validOrInfPK (PublicKey.add ⟨some (Gx, Gy)⟩ ⟨some (Gx, Gy)⟩) :=
  ⟨C8_amended.1 ⟨4, Gx, Gy⟩ ⟨some (Gx, Gy)⟩ (by decide),
   C8_amended.2.2.1 ⟨1⟩ (by decide) (by decide),
   C8_amended.2.2.2.1 ⟨some (Gx, Gy)⟩ ⟨some (Gx, Gy)⟩
     (Or.inr (C8_amended.1 ⟨4, Gx, Gy⟩ ⟨some (Gx, Gy)⟩ (by decide)))
     (Or.inr (C8_amended.1 ⟨4, Gx, Gy⟩ ⟨some (Gx, Gy)⟩ (by decide)))⟩

end Secp

namespace Secp

/-- C2: the secure randomized-nonce Schnorr signature s = nonce + e·k
satisfies the verification equation of the example: s·G = e·P + R, for
every secret key, nonce and message. Proved through the curve group law
and the computed fact n·G = O. -/
theorem C2_secure_schnorr_sound (k nonce : SecretKey) (msg : Message)
    (R : PublicKey) (e s : SecretKey)
    (hsig : secureSchnorrSign k nonce msg = Except.ok (R, e, s)) :
    PublicKey.from_secret_key s =
      PublicKey.add (SecretKey.mulPubkey e (PublicKey.from_secret_key k)) R := by
  rw [secureSchnorrSign, challengeScalar] at hsig
  cases hch : SecretKey.parse (digest
      [encodePoint (PublicKey.from_secret_key nonce),
       encodePoint (PublicKey.from_secret_key k), msg.m]) with
  | error err =>
      rw [hch] at hsig
      exact Except.noConfusion hsig
  | ok e0 =>
      rw [hch] at hsig
      have hpair := Except.ok.inj hsig
      have hR : PublicKey.from_secret_key nonce = R := congrArg Prod.fst hpair
      have he : e0 = e := congrArg (fun t => t.2.1) hpair
      have hs : SecretKey.add nonce (SecretKey.mul e0 k) = s :=
        congrArg (fun t => t.2.2) hpair
      subst he
      rw [← hR, ← hs]
      have hk : reprPt (pointMul k.s G) (k.s • Qg) := repr_mul _ reprG
      have hek : reprPt (pointMul e0.s (pointMul k.s G)) (e0.s • k.s • Qg) :=
        repr_mul _ hk
      have hr : reprPt (pointMul nonce.s G) (nonce.s • Qg) := repr_mul _ reprG
      have hsum : reprPt (pointAdd (pointMul e0.s (pointMul k.s G)) (pointMul nonce.s G))
          (e0.s • k.s • Qg + nonce.s • Qg) := repr_add hek hr
      have hlhs : reprPt (pointMul ((nonce.s + e0.s * k.s % N) % N) G)
          (((nonce.s + e0.s * k.s % N) % N) • Qg) := repr_mul _ reprG
      have hgroup : ((nonce.s + e0.s * k.s % N) % N) • Qg =
          e0.s • k.s • Qg + nonce.s • Qg := by
        rw [smul_mod_N, add_nsmul, smul_mod_N]
        rw [show e0.s * k.s = k.s * e0.s from Nat.mul_comm _ _, mul_nsmul]
        exact add_comm _ _
      rw [hgroup] at hlhs
      show (⟨pointMul ((nonce.s + e0.s * k.s % N) % N) G⟩ : PublicKey) =
        ⟨pointAdd (pointMul e0.s (pointMul k.s G)) (pointMul nonce.s G)⟩
      exact congrArg PublicKey.mk (reprPt_inj hlhs hsum)

/-- Witness for C2 at secret key 1, nonce 1, message scalar 0, with the
concrete challenge and signature scalars of that run. -/
theorem C2_witness :
    PublicKey.from_secret_key
      ⟨27676828144368647713012795341158966369286813639794776405253318963913221554467⟩ =
    PublicKey.add
      (SecretKey.mulPubkey
        ⟨27676828144368647713012795341158966369286813639794776405253318963913221554466⟩
        (PublicKey.from_secret_key ⟨1⟩))
      (PublicKey.from_secret_key ⟨1⟩) :=
  C2_secure_schnorr_sound ⟨1⟩ ⟨1⟩ ⟨0⟩ (PublicKey.from_secret_key ⟨1⟩)
    ⟨27676828144368647713012795341158966369286813639794776405253318963913221554466⟩
    ⟨27676828144368647713012795341158966369286813639794776405253318963913221554467⟩
    (by decide)

end Secp
